import Mathlib

/-!
Verification of the SalesTools quote pricing engine contract.

This development embeds, in Lean 4, the quote-pricing domain logic of the
SalesTools repository.  The frontend helpers that exist in the TypeScript
sources (`isValidDecoration`, `meetsMoq`, `toggleDesignAddon`,
`toggleAccessory`, the request/response shapes of `api/quotes.ts` and
`api/designQuotes.ts`) are translated directly from the source.  The pricing
engine itself (quantity-break resolver, line-item calculator, quote assembler,
persistence adapter) is consumed by the frontend only through its REST
contract; its behaviour is modelled here from the specification and marked as
such on every definition.

Money is represented in integer cents (`Int`), as the spec's numeric contract
recommends fixed-point arithmetic.
-/

namespace SalesTools

/-- Error taxonomy of the quote assembler.
Modelled from the spec: §7 distinguishes `InvalidRequest` (malformed or
out-of-range input) from `PricingDataMissing` (a required rate-table lookup
has no entry). -/
inductive QuoteError where
  | InvalidRequest
  | PricingDataMissing
deriving DecidableEq, Repr

/-- Domestic quote request, from `src/frontend/src/api/quotes.ts`
(`DomesticQuoteRequest`).  Optional TS fields that the forms always supply
(`shipping_speed`, `include_rope`, `num_dst_files`) are kept required;
nullable decoration slots are `Option String`. -/
structure DomesticQuoteRequest where
  design_number : Option String
  style_number : String
  quantity : Nat
  front_decoration : Option String
  left_decoration : Option String
  right_decoration : Option String
  back_decoration : Option String
  shipping_speed : String
  include_rope : Bool
  num_dst_files : Nat
deriving DecidableEq, Repr

/-- Overseas quote request, from `src/frontend/src/api/quotes.ts`
(`OverseasQuoteRequest`). -/
structure OverseasQuoteRequest where
  design_number : Option String
  hat_type : String
  quantity : Nat
  front_decoration : Option String
  left_decoration : Option String
  right_decoration : Option String
  back_decoration : Option String
  visor_decoration : Option String
  design_addons : Option (List String)
  accessories : Option (List String)
  shipping_method : String
deriving DecidableEq, Repr

/-- One computed domestic price row, the domestic projection of `PriceBreak`
in `src/frontend/src/api/quotes.ts` (nullable numeric fields become
`Option Int`, money in cents). -/
structure DomesticPriceBreak where
  quantity_break : Nat
  blank_price : Option Int
  front_decoration_price : Option Int
  left_decoration_price : Option Int
  right_decoration_price : Option Int
  back_decoration_price : Option Int
  rush_fee : Option Int
  rope_price : Option Int
  per_piece_price : Option Int
  digitizing_fee : Option Int
  total : Option Int
deriving DecidableEq, Repr

/-- One computed overseas price row, the overseas projection of `PriceBreak`
in `src/frontend/src/api/quotes.ts`. -/
structure OverseasPriceBreak where
  quantity_break : Nat
  blank_price : Option Int
  front_decoration_price : Option Int
  left_decoration_price : Option Int
  right_decoration_price : Option Int
  back_decoration_price : Option Int
  visor_decoration_price : Option Int
  addons_price : Option Int
  accessories_price : Option Int
  shipping_price : Option Int
  per_piece_price : Option Int
deriving DecidableEq, Repr

/-- Domestic quote response, from `src/frontend/src/api/quotes.ts`
(`DomesticQuoteResponse`): echoed request fields plus the price-break list. -/
structure DomesticQuoteResponse where
  style_number : String
  quantity : Nat
  front_decoration : Option String
  left_decoration : Option String
  right_decoration : Option String
  back_decoration : Option String
  shipping_speed : String
  include_rope : Bool
  price_breaks : List DomesticPriceBreak
deriving DecidableEq, Repr

/-- Overseas quote response, from `src/frontend/src/api/quotes.ts`
(`OverseasQuoteResponse`). -/
structure OverseasQuoteResponse where
  hat_type : String
  quantity : Nat
  front_decoration : Option String
  left_decoration : Option String
  right_decoration : Option String
  back_decoration : Option String
  visor_decoration : Option String
  design_addons : Option (List String)
  accessories : Option (List String)
  shipping_method : String
  price_breaks : List OverseasPriceBreak
deriving DecidableEq, Repr

/-- The character list of a string with leading and trailing whitespace
removed: the JavaScript `value.trim()` of the frontend helpers, computed on
`String.data` so that concrete inputs evaluate inside the kernel. -/
def trimmedChars (v : String) : List Char :=
  ((v.data.dropWhile Char.isWhitespace).reverse.dropWhile
    Char.isWhitespace).reverse

/-- From `src/frontend/src/pages/QuoteEstimator.tsx` (and identically in
`QuoteModal.tsx`): a decoration value is valid when it is a string whose
trimmed length is positive and which is not the literal `"0"`; `null` and
`undefined` (here `none`) are invalid. -/
def isValidDecoration : Option String → Bool
  | none => false
  | some v => (trimmedChars v).length > 0 && v ≠ "0"

/-- From `src/frontend/src/pages/QuoteEstimator.tsx` (`meetsMoq`, also in
`QuoteSummary.tsx`): a price break meets MOQ exactly when its
`per_piece_price` is not null. -/
def meetsMoq (pb : OverseasPriceBreak) : Bool :=
  pb.per_piece_price.isSome

/-- From `src/frontend/src/pages/QuoteEstimator.tsx` (`toggleDesignAddon`,
also in `QuoteModal.tsx`): remove the addon if present, append it otherwise;
all other form fields are carried over unchanged. -/
def toggleDesignAddon (addon : String) (prev : OverseasQuoteRequest) :
    OverseasQuoteRequest :=
  let current := prev.design_addons.getD []
  if current.contains addon then
    { prev with design_addons := some (current.filter (· != addon)) }
  else
    { prev with design_addons := some (current ++ [addon]) }

/-- From `src/frontend/src/pages/QuoteEstimator.tsx` (`toggleAccessory`,
also in `QuoteModal.tsx`): remove the accessory if present, append it
otherwise; all other form fields are carried over unchanged. -/
def toggleAccessory (accessory : String) (prev : OverseasQuoteRequest) :
    OverseasQuoteRequest :=
  let current := prev.accessories.getD []
  if current.contains accessory then
    { prev with accessories := some (current.filter (· != accessory)) }
  else
    { prev with accessories := some (current ++ [accessory]) }

/-- Domestic rate table.
Modelled from the spec: §3 "RateTable / Domestic" — the pricing engine's
reference data is not in the shown sources, so lookups are abstract partial
maps (a `none` result is a missing table entry): ordered quantity breaks,
blank price by (style, break), separate front/primary and additional
decoration price tables by (method, break), flat rush surcharge per shipping
speed, flat rope add-on price, and a per-file digitizing rate. -/
structure DomesticRates where
  quantityBreaks : List Nat
  blankPrice : String → Nat → Option Int
  frontDecorationPrice : String → Nat → Option Int
  additionalDecorationPrice : String → Nat → Option Int
  rushFee : String → Option Int
  ropePrice : Int
  digitizingPerFile : Int

/-- Overseas rate table.
Modelled from the spec: §3 "RateTable / Overseas" — ordered quantity breaks,
blank price by (hat type, break), a single decoration price table applying
uniformly to all five locations, flat add-on and accessory prices by
(item, break), shipping price by (method, break), and a minimum order
quantity per (hat type, shipping method). -/
structure OverseasRates where
  quantityBreaks : List Nat
  blankPrice : String → Nat → Option Int
  decorationPrice : String → Nat → Option Int
  addonPrice : String → Nat → Option Int
  accessoryPrice : String → Nat → Option Int
  shippingPrice : String → Nat → Option Int
  moq : String → String → Option Nat

/-- Turn a table lookup into the assembler's failure discipline: a missing
entry aborts with the given error instead of defaulting to zero.
Modelled from the spec: §4.2 "All lookups missing a table entry fail with
`PricingDataMissing`". -/
def requireEntry {α : Type} (e : QuoteError) : Option α → Except QuoteError α
  | some a => .ok a
  | none => .error e

/-- Domestic quantity-break resolver.
Modelled from the spec: §4.1 — walk the ascending break list keeping the last
break that is `≤` the requested quantity (so an exact boundary hit selects
that break); `none` when the quantity is below every break. -/
def resolveDomesticBreak : List Nat → Nat → Option Nat
  | [], _ => none
  | b :: rest, qty =>
    if b ≤ qty then
      match resolveDomesticBreak rest qty with
      | some r => some r
      | none => some b
    else resolveDomesticBreak rest qty

/-- Decoration line item at one break.
Modelled from the spec: §4.2 "Decoration price" — an absent/invalid slot
(per `isValidDecoration`) contributes nothing and is excluded from the
response's decoration field; a valid slot is a (method, break) table lookup
whose missing entry fails with `PricingDataMissing`. -/
def decorationLine (lookup : String → Nat → Option Int) (slot : Option String)
    (brk : Nat) : Except QuoteError (Option Int) :=
  if isValidDecoration slot then
    match slot.bind (fun m => lookup m brk) with
    | some p => .ok (some p)
    | none => .error .PricingDataMissing
  else
    .ok none

/-- The quantity threshold at which the domestic digitizing fee is waived.
Modelled from the spec: §3/§4.2 — waived once quantity ≥ 144. -/
def digitizingWaiverThreshold : Nat := 144

/-- Price one domestic break: every line item of §4.2, the per-piece sum, and
the grand total.
Modelled from the spec: §4.2/§4.3 — blank and rush lookups fail with
`PricingDataMissing` when absent; rope is a flat add applied only when
`include_rope`; the digitizing fee is `num_dst_files × per-file rate`, forced
to 0 after computation once quantity ≥ 144, and is added once to the total
without being multiplied by the quantity. -/
def domesticBreakFor (rt : DomesticRates) (req : DomesticQuoteRequest)
    (brk : Nat) : Except QuoteError DomesticPriceBreak := do
  let blank ← requireEntry .PricingDataMissing (rt.blankPrice req.style_number brk)
  let front ← decorationLine rt.frontDecorationPrice req.front_decoration brk
  let left ← decorationLine rt.additionalDecorationPrice req.left_decoration brk
  let right ← decorationLine rt.additionalDecorationPrice req.right_decoration brk
  let back ← decorationLine rt.additionalDecorationPrice req.back_decoration brk
  let rush ← requireEntry .PricingDataMissing (rt.rushFee req.shipping_speed)
  let rope : Option Int := if req.include_rope then some rt.ropePrice else none
  let rawDigitizing : Int := (req.num_dst_files : Int) * rt.digitizingPerFile
  let digitizing : Int :=
    if digitizingWaiverThreshold ≤ req.quantity then 0 else rawDigitizing
  let perPiece : Int :=
    blank + front.getD 0 + left.getD 0 + right.getD 0 + back.getD 0 +
      rush + rope.getD 0
  .ok
    { quantity_break := brk
      blank_price := some blank
      front_decoration_price := front
      left_decoration_price := left
      right_decoration_price := right
      back_decoration_price := back
      rush_fee := some rush
      rope_price := rope
      per_piece_price := some perPiece
      digitizing_fee := some digitizing
      total := some (perPiece * (req.quantity : Int) + digitizing) }

/-- Domestic quote assembler.
Modelled from the spec: §4.3 — a quantity below the smallest break fails with
`InvalidRequest` before any pricing; otherwise the single resolved break is
priced and the response echoes the request fields with a singleton
`price_breaks` list. -/
def computeDomesticQuote (rt : DomesticRates) (req : DomesticQuoteRequest) :
    Except QuoteError DomesticQuoteResponse :=
  match resolveDomesticBreak rt.quantityBreaks req.quantity with
  | none => .error .InvalidRequest
  | some brk => do
    let pb ← domesticBreakFor rt req brk
    .ok
      { style_number := req.style_number
        quantity := req.quantity
        front_decoration := req.front_decoration
        left_decoration := req.left_decoration
        right_decoration := req.right_decoration
        back_decoration := req.back_decoration
        shipping_speed := req.shipping_speed
        include_rope := req.include_rope
        price_breaks := [pb] }

/-- Sum the flat per-break prices of every selected add-on or accessory.
Modelled from the spec: §4.2 "Add-ons / accessories" — 0 for an empty list,
a missing item/break entry fails with `PricingDataMissing`. -/
def sumItemPrices (lookup : String → Nat → Option Int) (brk : Nat) :
    List String → Except QuoteError Int
  | [] => .ok 0
  | item :: rest => do
    let p ← requireEntry .PricingDataMissing (lookup item brk)
    let s ← sumItemPrices lookup brk rest
    .ok (p + s)

/-- The "does not meet MOQ" row: every per-piece field is null together while
the break's quantity value is kept.
Modelled from the spec: §3 — "does not meet MOQ" is a first-class state, not
zero. -/
def belowMoqBreak (brk : Nat) : OverseasPriceBreak :=
  { quantity_break := brk
    blank_price := none
    front_decoration_price := none
    left_decoration_price := none
    right_decoration_price := none
    back_decoration_price := none
    visor_decoration_price := none
    addons_price := none
    accessories_price := none
    shipping_price := none
    per_piece_price := none }

/-- Price one overseas break against its MOQ.
Modelled from the spec: §4.3 step 3 — a break below the configuration's MOQ
yields a row whose per-piece fields are all null while its quantity value is
kept, with line pricing skipped entirely; otherwise every §4.2 overseas line
item is computed and summed into the per-piece price. -/
def overseasBreakFor (rt : OverseasRates) (req : OverseasQuoteRequest)
    (moqv : Nat) (brk : Nat) : Except QuoteError OverseasPriceBreak :=
  if brk < moqv then
    .ok (belowMoqBreak brk)
  else do
    let blank ← requireEntry .PricingDataMissing (rt.blankPrice req.hat_type brk)
    let front ← decorationLine rt.decorationPrice req.front_decoration brk
    let left ← decorationLine rt.decorationPrice req.left_decoration brk
    let right ← decorationLine rt.decorationPrice req.right_decoration brk
    let back ← decorationLine rt.decorationPrice req.back_decoration brk
    let visor ← decorationLine rt.decorationPrice req.visor_decoration brk
    let addons ← sumItemPrices rt.addonPrice brk (req.design_addons.getD [])
    let accessories ← sumItemPrices rt.accessoryPrice brk (req.accessories.getD [])
    let shipping ← requireEntry .PricingDataMissing
      (rt.shippingPrice req.shipping_method brk)
    let perPiece : Int :=
      blank + front.getD 0 + left.getD 0 + right.getD 0 + back.getD 0 +
        visor.getD 0 + addons + accessories + shipping
    .ok
      { quantity_break := brk
        blank_price := some blank
        front_decoration_price := front
        left_decoration_price := left
        right_decoration_price := right
        back_decoration_price := back
        visor_decoration_price := visor
        addons_price := some addons
        accessories_price := some accessories
        shipping_price := some shipping
        per_piece_price := some perPiece }

/-- Price every break of the overseas table, in table order.
Modelled from the spec: §4.1/§4.3 — overseas quoting prices the entire
ordered break list, each break independently checked against the MOQ. -/
def overseasBreaks (rt : OverseasRates) (req : OverseasQuoteRequest)
    (moqv : Nat) : List Nat → Except QuoteError (List OverseasPriceBreak)
  | [] => .ok []
  | b :: rest => do
    let pb ← overseasBreakFor rt req moqv b
    let pbs ← overseasBreaks rt req moqv rest
    .ok (pb :: pbs)

/-- The overseas channel's absolute minimum quantity.
Modelled from the spec: §3 invariants — a request's quantity must be ≥ the
smallest break's implied minimum, 144 overseas. -/
def overseasMinimumQuantity : Nat := 144

/-- Overseas quote assembler.
Modelled from the spec: §4.1/§4.3 — the requested quantity is used only for
validation against the channel-wide minimum; on success the response carries
one price row per table break regardless of the quantity, each row
independently gated by the (hat type, shipping method) MOQ, and echoes the
request fields. -/
def computeOverseasQuote (rt : OverseasRates) (req : OverseasQuoteRequest) :
    Except QuoteError OverseasQuoteResponse :=
  if req.quantity < overseasMinimumQuantity then
    .error .InvalidRequest
  else do
    let moqv ← requireEntry .PricingDataMissing
      (rt.moq req.hat_type req.shipping_method)
    let pbs ← overseasBreaks rt req moqv rt.quantityBreaks
    .ok
      { hat_type := req.hat_type
        quantity := req.quantity
        front_decoration := req.front_decoration
        left_decoration := req.left_decoration
        right_decoration := req.right_decoration
        back_decoration := req.back_decoration
        visor_decoration := req.visor_decoration
        design_addons := req.design_addons
        accessories := req.accessories
        shipping_method := req.shipping_method
        price_breaks := pbs }

/-- The cached price-break snapshot of a `DesignQuote`: the TS field is one
polymorphic array; following spec §9 the two channel shapes are modelled as
distinct variants sharing their row types. -/
inductive CachedBreaks where
  | domestic (breaks : List DomesticPriceBreak)
  | overseas (breaks : List OverseasPriceBreak)
deriving DecidableEq, Repr

/-- A quote request of either fulfillment channel, as accepted by the
persistence adapter (spec §4.4's channel-generic `saveQuote`). -/
inductive QuoteRequest where
  | domestic (req : DomesticQuoteRequest)
  | overseas (req : OverseasQuoteRequest)
deriving DecidableEq, Repr

/-- Persisted quote entity attached to a design, from
`src/frontend/src/api/designQuotes.ts` (`DesignQuote`): the common and
channel-specific request fields (those of the non-applicable channel are
null) plus the cached snapshot (`cached_price_breaks`, `cached_total`,
`cached_per_piece`); server bookkeeping (`id`, timestamps) is omitted. -/
structure DesignQuote where
  design_id : String
  quote_type : String
  quantity : Nat
  front_decoration : Option String
  left_decoration : Option String
  right_decoration : Option String
  back_decoration : Option String
  style_number : Option String
  shipping_speed : Option String
  include_rope : Option Bool
  num_dst_files : Option Nat
  hat_type : Option String
  visor_decoration : Option String
  design_addons : Option (List String)
  accessories : Option (List String)
  shipping_method : Option String
  cached_price_breaks : Option CachedBreaks
  cached_total : Option Int
  cached_per_piece : Option Int
deriving DecidableEq, Repr

/-- Build the persisted entity from a domestic request and its freshly
computed response.
Modelled from the spec: §4.4 — the raw request fields and the resulting
`cached_*` snapshot are stored together; the cached total and per-piece come
from the response's single resolved break; overseas-only fields are null. -/
def designQuoteOfDomestic (designId : String) (req : DomesticQuoteRequest)
    (resp : DomesticQuoteResponse) : DesignQuote :=
  { design_id := designId
    quote_type := "domestic"
    quantity := req.quantity
    front_decoration := req.front_decoration
    left_decoration := req.left_decoration
    right_decoration := req.right_decoration
    back_decoration := req.back_decoration
    style_number := some req.style_number
    shipping_speed := some req.shipping_speed
    include_rope := some req.include_rope
    num_dst_files := some req.num_dst_files
    hat_type := none
    visor_decoration := none
    design_addons := none
    accessories := none
    shipping_method := none
    cached_price_breaks := some (.domestic resp.price_breaks)
    cached_total := resp.price_breaks.head?.bind DomesticPriceBreak.total
    cached_per_piece :=
      resp.price_breaks.head?.bind DomesticPriceBreak.per_piece_price }

/-- Build the persisted entity from an overseas request and its freshly
computed response.
Modelled from the spec: §4.4 with §3 — the full break table is snapshotted
in `cached_price_breaks`; the overseas response resolves no single total or
per-piece price (its pricing is per displayed break, and the frontend's
`QuoteSummary` renders the overseas cache only from the break table), so the
scalar snapshot fields stay null; domestic-only fields are null. -/
def designQuoteOfOverseas (designId : String) (req : OverseasQuoteRequest)
    (resp : OverseasQuoteResponse) : DesignQuote :=
  { design_id := designId
    quote_type := "overseas"
    quantity := req.quantity
    front_decoration := req.front_decoration
    left_decoration := req.left_decoration
    right_decoration := req.right_decoration
    back_decoration := req.back_decoration
    style_number := none
    shipping_speed := none
    include_rope := none
    num_dst_files := none
    hat_type := some req.hat_type
    visor_decoration := req.visor_decoration
    design_addons := req.design_addons
    accessories := req.accessories
    shipping_method := some req.shipping_method
    cached_price_breaks := some (.overseas resp.price_breaks)
    cached_total := none
    cached_per_piece := none }

/-- Reconstruct the domestic quote request recorded in a persisted
`DesignQuote`, for the round-trip comparison against `computeDomesticQuote`
(the optional label `design_number` is not persisted and does not
participate in pricing). -/
def domesticRequestOfQuote (dq : DesignQuote) : DomesticQuoteRequest :=
  { design_number := none
    style_number := dq.style_number.getD ""
    quantity := dq.quantity
    front_decoration := dq.front_decoration
    left_decoration := dq.left_decoration
    right_decoration := dq.right_decoration
    back_decoration := dq.back_decoration
    shipping_speed := dq.shipping_speed.getD ""
    include_rope := dq.include_rope.getD false
    num_dst_files := dq.num_dst_files.getD 0 }

/-- Reconstruct the overseas quote request recorded in a persisted
`DesignQuote`, for the round-trip comparison against
`computeOverseasQuote`. -/
def overseasRequestOfQuote (dq : DesignQuote) : OverseasQuoteRequest :=
  { design_number := none
    hat_type := dq.hat_type.getD ""
    quantity := dq.quantity
    front_decoration := dq.front_decoration
    left_decoration := dq.left_decoration
    right_decoration := dq.right_decoration
    back_decoration := dq.back_decoration
    visor_decoration := dq.visor_decoration
    design_addons := dq.design_addons
    accessories := dq.accessories
    shipping_method := dq.shipping_method.getD "" }

/-- The persistence store: the design-id–keyed quote records. -/
abbrev QuoteStore : Type := List (String × DesignQuote)

/-- Fetch a design's quote: a pure lookup of the cached snapshot, performing
no recomputation.
Modelled from the spec: §4.4 `getQuote(designId)` "returns the cached
snapshot without recomputation". -/
def getQuote (store : QuoteStore) (designId : String) : Option DesignQuote :=
  (store.find? (fun p => p.1 == designId)).map (fun p => p.2)

/-- Save a design's quote (either channel): compute via the matching
assembler, then store the request fields and the cached snapshot atomically,
replacing any previous record for the same design.
Modelled from the spec: §4.4 `saveQuote(designId, request)`. -/
def saveQuote (rt : DomesticRates) (ort : OverseasRates) (store : QuoteStore)
    (designId : String) :
    QuoteRequest → Except QuoteError (QuoteStore × DesignQuote)
  | .domestic req => do
    let resp ← computeDomesticQuote rt req
    let dq := designQuoteOfDomestic designId req resp
    .ok ((designId, dq) :: store.filter (fun p => p.1 != designId), dq)
  | .overseas req => do
    let resp ← computeOverseasQuote ort req
    let dq := designQuoteOfOverseas designId req resp
    .ok ((designId, dq) :: store.filter (fun p => p.1 != designId), dq)

/-!
Concrete test fixtures.

A small synthetic rate table in the shape the spec describes (break lists
24/144/…/5040 domestic and 144/…/5040 overseas, prices in cents), used by the
witness theorems to evaluate the engine on concrete inputs.
-/

/-- A concrete domestic rate table for witnesses (prices in cents). -/
def rtTest : DomesticRates where
  quantityBreaks := [24, 144, 288, 576, 1008, 5040]
  blankPrice := fun s brk =>
    if s = "ST100" then some (if brk < 144 then 700 else 600) else none
  frontDecorationPrice := fun m brk =>
    if m = "Embroidery" then some (if brk < 288 then 250 else 200) else none
  additionalDecorationPrice := fun m _brk =>
    if m = "Embroidery" then some 150 else none
  rushFee := fun sp =>
    if sp = "Standard (5-7 Production Days)" then some 0
    else if sp = "Rush (3 Production Days)" then some 100
    else none
  ropePrice := 100
  digitizingPerFile := 1500

/-- A concrete domestic request for witnesses. -/
def reqTest : DomesticQuoteRequest where
  design_number := some "Design 1"
  style_number := "ST100"
  quantity := 150
  front_decoration := some "Embroidery"
  left_decoration := none
  right_decoration := some "Embroidery"
  back_decoration := none
  shipping_speed := "Standard (5-7 Production Days)"
  include_rope := true
  num_dst_files := 3

/-- A concrete overseas rate table for witnesses (prices in cents). -/
def ortTest : OverseasRates where
  quantityBreaks := [144, 288, 576, 1008, 2880, 5040]
  blankPrice := fun t brk =>
    if t = "Classic" then some (if brk < 1008 then 450 else 400) else none
  decorationPrice := fun m _brk =>
    if m = "Embroidery" then some 75 else none
  addonPrice := fun a _brk =>
    if a = "Rope" then some 50 else none
  accessoryPrice := fun a _brk =>
    if a = "Hang Tag" then some 25 else none
  shippingPrice := fun m brk =>
    if m = "FOB CA" then some (if brk < 576 then 120 else 90) else none
  moq := fun t m =>
    if t = "Classic" && m = "FOB CA" then some 576 else none

/-- A concrete overseas request for witnesses. -/
def oreqTest : OverseasQuoteRequest where
  design_number := none
  hat_type := "Classic"
  quantity := 5040
  front_decoration := some "Embroidery"
  left_decoration := none
  right_decoration := none
  back_decoration := none
  visor_decoration := none
  design_addons := some ["Rope"]
  accessories := some []
  shipping_method := "FOB CA"

/-- Placeholder domestic response used only as a `getD` default. -/
def fallbackDomesticResponse : DomesticQuoteResponse :=
  { style_number := ""
    quantity := 0
    front_decoration := none
    left_decoration := none
    right_decoration := none
    back_decoration := none
    shipping_speed := ""
    include_rope := false
    price_breaks := [] }

/-- Placeholder overseas response used only as a `getD` default. -/
def fallbackOverseasResponse : OverseasQuoteResponse :=
  { hat_type := ""
    quantity := 0
    front_decoration := none
    left_decoration := none
    right_decoration := none
    back_decoration := none
    visor_decoration := none
    design_addons := none
    accessories := none
    shipping_method := ""
    price_breaks := [] }

/-- The concrete domestic response computed for `reqTest`. -/
def respTest : DomesticQuoteResponse :=
  (computeDomesticQuote rtTest reqTest).toOption.getD fallbackDomesticResponse

/-- The single price row of `respTest`. -/
def pbTest : DomesticPriceBreak :=
  respTest.price_breaks.getD 0
    { quantity_break := 0
      blank_price := none
      front_decoration_price := none
      left_decoration_price := none
      right_decoration_price := none
      back_decoration_price := none
      rush_fee := none
      rope_price := none
      per_piece_price := none
      digitizing_fee := none
      total := none }

/-- The concrete overseas response computed for `oreqTest`. -/
def orespTest : OverseasQuoteResponse :=
  (computeOverseasQuote ortTest oreqTest).toOption.getD fallbackOverseasResponse

/-- The first overseas row of `orespTest` at or above the MOQ (break 576). -/
def opbTest : OverseasPriceBreak :=
  orespTest.price_breaks.getD 2 (belowMoqBreak 0)

/-- Placeholder persisted quote used only as a `getD` default. -/
def fallbackDesignQuote : DesignQuote :=
  { design_id := ""
    quote_type := ""
    quantity := 0
    front_decoration := none
    left_decoration := none
    right_decoration := none
    back_decoration := none
    style_number := none
    shipping_speed := none
    include_rope := none
    num_dst_files := none
    hat_type := none
    visor_decoration := none
    design_addons := none
    accessories := none
    shipping_method := none
    cached_price_breaks := none
    cached_total := none
    cached_per_piece := none }

/-- The concrete store-and-record pair produced by saving the domestic
`reqTest` against design "d1" in an empty store. -/
def savedTest : QuoteStore × DesignQuote :=
  (saveQuote rtTest ortTest [] "d1" (.domestic reqTest)).toOption.getD
    ([], fallbackDesignQuote)

/-- The concrete store-and-record pair produced by then saving the overseas
`oreqTest` against design "d2". -/
def savedTestOverseas : QuoteStore × DesignQuote :=
  (saveQuote rtTest ortTest savedTest.1 "d2"
    (.overseas oreqTest)).toOption.getD ([], fallbackDesignQuote)

/-!
Helper lemmas.
-/

theorem except_bind_ok {ε α β : Type} {x : Except ε α} {f : α → Except ε β}
    {b : β} (h : x >>= f = .ok b) : ∃ a, x = .ok a ∧ f a = .ok b := by
  cases x with
  | error e => simp [Bind.bind, Except.bind] at h
  | ok a => exact ⟨a, rfl, h⟩

theorem requireEntry_ok {α : Type} {e : QuoteError} {o : Option α} {a : α}
    (h : requireEntry e o = .ok a) : o = some a := by
  cases o with
  | none => simp [requireEntry] at h
  | some b =>
    simp only [requireEntry, Except.ok.injEq] at h
    rw [h]

theorem decorationLine_invalid {f : String → Nat → Option Int}
    {slot : Option String} {brk : Nat} (hv : isValidDecoration slot = false) :
    decorationLine f slot brk = .ok none := by
  simp [decorationLine, hv]

theorem resolveDomesticBreak_none {l : List Nat} {qty : Nat}
    (h : resolveDomesticBreak l qty = none) : ∀ b ∈ l, qty < b := by
  induction l with
  | nil => intro b hb; cases hb
  | cons a rest ih =>
    unfold resolveDomesticBreak at h
    by_cases ha : a ≤ qty
    · rw [if_pos ha] at h
      cases hrest : resolveDomesticBreak rest qty <;> rw [hrest] at h <;>
        simp at h
    · rw [if_neg ha] at h
      intro b hb
      rcases List.mem_cons.mp hb with rfl | hb
      · exact Nat.not_le.mp ha
      · exact ih h b hb

theorem resolveDomesticBreak_eq_none {l : List Nat} {qty : Nat}
    (h : ∀ b ∈ l, qty < b) : resolveDomesticBreak l qty = none := by
  induction l with
  | nil => rfl
  | cons a rest ih =>
    unfold resolveDomesticBreak
    rw [if_neg (Nat.not_le.mpr (h a (List.mem_cons_self a rest)))]
    exact ih fun b hb => h b (List.mem_cons_of_mem a hb)

theorem resolveDomesticBreak_some {l : List Nat} {qty brk : Nat}
    (hsorted : l.Pairwise (· < ·))
    (h : resolveDomesticBreak l qty = some brk) :
    brk ∈ l ∧ brk ≤ qty ∧ ∀ b ∈ l, b ≤ qty → b ≤ brk := by
  induction l with
  | nil => simp [resolveDomesticBreak] at h
  | cons a rest ih =>
    have hpair := List.pairwise_cons.mp hsorted
    unfold resolveDomesticBreak at h
    by_cases ha : a ≤ qty
    · rw [if_pos ha] at h
      cases hrest : resolveDomesticBreak rest qty with
      | some r =>
        rw [hrest] at h
        simp only [Option.some.injEq] at h
        subst h
        obtain ⟨hmem, hle, hmax⟩ := ih hpair.2 hrest
        refine ⟨List.mem_cons_of_mem _ hmem, hle, ?_⟩
        intro b hb hble
        rcases List.mem_cons.mp hb with rfl | hb
        · exact Nat.le_of_lt (hpair.1 _ hmem)
        · exact hmax b hb hble
      | none =>
        rw [hrest] at h
        simp only [Option.some.injEq] at h
        subst h
        refine ⟨List.mem_cons_self _ _, ha, ?_⟩
        intro b hb hble
        rcases List.mem_cons.mp hb with rfl | hb
        · exact Nat.le_refl _
        · exact absurd hble
            (Nat.not_le.mpr (resolveDomesticBreak_none hrest b hb))
    · rw [if_neg ha] at h
      obtain ⟨hmem, hle, hmax⟩ := ih hpair.2 h
      refine ⟨List.mem_cons_of_mem _ hmem, hle, ?_⟩
      intro b hb hble
      rcases List.mem_cons.mp hb with rfl | hb
      · exact absurd hble ha
      · exact hmax b hb hble

theorem domesticBreakFor_inv {rt : DomesticRates} {req : DomesticQuoteRequest}
    {brk : Nat} {pb : DomesticPriceBreak}
    (h : domesticBreakFor rt req brk = .ok pb) :
    pb.quantity_break = brk ∧
    (∃ blank, rt.blankPrice req.style_number brk = some blank ∧
      pb.blank_price = some blank) ∧
    decorationLine rt.frontDecorationPrice req.front_decoration brk =
      .ok pb.front_decoration_price ∧
    decorationLine rt.additionalDecorationPrice req.left_decoration brk =
      .ok pb.left_decoration_price ∧
    decorationLine rt.additionalDecorationPrice req.right_decoration brk =
      .ok pb.right_decoration_price ∧
    decorationLine rt.additionalDecorationPrice req.back_decoration brk =
      .ok pb.back_decoration_price ∧
    (∃ rush, rt.rushFee req.shipping_speed = some rush ∧
      pb.rush_fee = some rush) ∧
    pb.rope_price = (if req.include_rope then some rt.ropePrice else none) ∧
    pb.digitizing_fee = some (if digitizingWaiverThreshold ≤ req.quantity
      then 0 else (req.num_dst_files : Int) * rt.digitizingPerFile) ∧
    pb.per_piece_price = some (pb.blank_price.getD 0 +
      pb.front_decoration_price.getD 0 + pb.left_decoration_price.getD 0 +
      pb.right_decoration_price.getD 0 + pb.back_decoration_price.getD 0 +
      pb.rush_fee.getD 0 + pb.rope_price.getD 0) ∧
    pb.total = some (pb.per_piece_price.getD 0 * (req.quantity : Int) +
      pb.digitizing_fee.getD 0) := by
  unfold domesticBreakFor at h
  obtain ⟨blank, hblank, h⟩ := except_bind_ok h
  obtain ⟨front, hfront, h⟩ := except_bind_ok h
  obtain ⟨left, hleft, h⟩ := except_bind_ok h
  obtain ⟨right, hright, h⟩ := except_bind_ok h
  obtain ⟨back, hback, h⟩ := except_bind_ok h
  obtain ⟨rush, hrush, h⟩ := except_bind_ok h
  simp only [Except.ok.injEq] at h
  subst h
  exact ⟨rfl, ⟨blank, requireEntry_ok hblank, rfl⟩, hfront, hleft, hright,
    hback, ⟨rush, requireEntry_ok hrush, rfl⟩, rfl, rfl, rfl, rfl⟩

theorem computeDomesticQuote_inv {rt : DomesticRates}
    {req : DomesticQuoteRequest} {resp : DomesticQuoteResponse}
    (h : computeDomesticQuote rt req = .ok resp) :
    ∃ brk pb,
      resolveDomesticBreak rt.quantityBreaks req.quantity = some brk ∧
      domesticBreakFor rt req brk = .ok pb ∧
      resp = { style_number := req.style_number
               quantity := req.quantity
               front_decoration := req.front_decoration
               left_decoration := req.left_decoration
               right_decoration := req.right_decoration
               back_decoration := req.back_decoration
               shipping_speed := req.shipping_speed
               include_rope := req.include_rope
               price_breaks := [pb] } := by
  unfold computeDomesticQuote at h
  cases hres : resolveDomesticBreak rt.quantityBreaks req.quantity with
  | none => rw [hres] at h; exact absurd h (by simp)
  | some brk =>
    rw [hres] at h
    obtain ⟨pb, hpb, h⟩ := except_bind_ok h
    simp only [Except.ok.injEq] at h
    exact ⟨brk, pb, rfl, hpb, h.symm⟩

theorem overseasBreakFor_inv {rt : OverseasRates} {req : OverseasQuoteRequest}
    {moqv brk : Nat} {pb : OverseasPriceBreak}
    (h : overseasBreakFor rt req moqv brk = .ok pb) :
    pb.quantity_break = brk ∧
    (brk < moqv → pb = belowMoqBreak brk) ∧
    (¬ brk < moqv →
      (∃ blank, rt.blankPrice req.hat_type brk = some blank ∧
        pb.blank_price = some blank) ∧
      decorationLine rt.decorationPrice req.front_decoration brk =
        .ok pb.front_decoration_price ∧
      decorationLine rt.decorationPrice req.left_decoration brk =
        .ok pb.left_decoration_price ∧
      decorationLine rt.decorationPrice req.right_decoration brk =
        .ok pb.right_decoration_price ∧
      decorationLine rt.decorationPrice req.back_decoration brk =
        .ok pb.back_decoration_price ∧
      decorationLine rt.decorationPrice req.visor_decoration brk =
        .ok pb.visor_decoration_price ∧
      (∃ a, sumItemPrices rt.addonPrice brk (req.design_addons.getD []) =
        .ok a ∧ pb.addons_price = some a) ∧
      (∃ c, sumItemPrices rt.accessoryPrice brk (req.accessories.getD []) =
        .ok c ∧ pb.accessories_price = some c) ∧
      (∃ s, rt.shippingPrice req.shipping_method brk = some s ∧
        pb.shipping_price = some s) ∧
      pb.per_piece_price = some (pb.blank_price.getD 0 +
        pb.front_decoration_price.getD 0 + pb.left_decoration_price.getD 0 +
        pb.right_decoration_price.getD 0 + pb.back_decoration_price.getD 0 +
        pb.visor_decoration_price.getD 0 + pb.addons_price.getD 0 +
        pb.accessories_price.getD 0 + pb.shipping_price.getD 0)) := by
  unfold overseasBreakFor at h
  by_cases hm : brk < moqv
  · rw [if_pos hm] at h
    simp only [Except.ok.injEq] at h
    subst h
    exact ⟨rfl, fun _ => rfl, fun hc => absurd hm hc⟩
  · rw [if_neg hm] at h
    obtain ⟨blank, hblank, h⟩ := except_bind_ok h
    obtain ⟨front, hfront, h⟩ := except_bind_ok h
    obtain ⟨left, hleft, h⟩ := except_bind_ok h
    obtain ⟨right, hright, h⟩ := except_bind_ok h
    obtain ⟨back, hback, h⟩ := except_bind_ok h
    obtain ⟨visor, hvisor, h⟩ := except_bind_ok h
    obtain ⟨addons, haddons, h⟩ := except_bind_ok h
    obtain ⟨accessories, hacc, h⟩ := except_bind_ok h
    obtain ⟨shipping, hship, h⟩ := except_bind_ok h
    simp only [Except.ok.injEq] at h
    subst h
    exact ⟨rfl, fun hc => absurd hc hm, fun _ =>
      ⟨⟨blank, requireEntry_ok hblank, rfl⟩, hfront, hleft, hright, hback,
        hvisor, ⟨addons, haddons, rfl⟩, ⟨accessories, hacc, rfl⟩,
        ⟨shipping, requireEntry_ok hship, rfl⟩, rfl⟩⟩

theorem overseasBreaks_inv {rt : OverseasRates} {req : OverseasQuoteRequest}
    {moqv : Nat} : ∀ {l : List Nat} {pbs : List OverseasPriceBreak},
    overseasBreaks rt req moqv l = .ok pbs →
    pbs.map OverseasPriceBreak.quantity_break = l ∧
    ∀ pb ∈ pbs, overseasBreakFor rt req moqv pb.quantity_break = .ok pb := by
  intro l
  induction l with
  | nil =>
    intro pbs h
    simp only [overseasBreaks, Except.ok.injEq] at h
    subst h
    exact ⟨rfl, by intro pb hpb; cases hpb⟩
  | cons b rest ih =>
    intro pbs h
    unfold overseasBreaks at h
    obtain ⟨pb, hpb, h⟩ := except_bind_ok h
    obtain ⟨pbs', hrest, h⟩ := except_bind_ok h
    simp only [Except.ok.injEq] at h
    subst h
    obtain ⟨hmap, hall⟩ := ih hrest
    have hqb := (overseasBreakFor_inv hpb).1
    refine ⟨?_, ?_⟩
    · simp [List.map_cons, hqb, hmap]
    · intro x hx
      rcases List.mem_cons.mp hx with rfl | hx
      · rw [hqb]; exact hpb
      · exact hall x hx

theorem computeOverseasQuote_inv {rt : OverseasRates}
    {req : OverseasQuoteRequest} {resp : OverseasQuoteResponse}
    (h : computeOverseasQuote rt req = .ok resp) :
    ∃ moqv pbs,
      ¬ req.quantity < overseasMinimumQuantity ∧
      rt.moq req.hat_type req.shipping_method = some moqv ∧
      overseasBreaks rt req moqv rt.quantityBreaks = .ok pbs ∧
      resp = { hat_type := req.hat_type
               quantity := req.quantity
               front_decoration := req.front_decoration
               left_decoration := req.left_decoration
               right_decoration := req.right_decoration
               back_decoration := req.back_decoration
               visor_decoration := req.visor_decoration
               design_addons := req.design_addons
               accessories := req.accessories
               shipping_method := req.shipping_method
               price_breaks := pbs } := by
  unfold computeOverseasQuote at h
  by_cases hq : req.quantity < overseasMinimumQuantity
  · rw [if_pos hq] at h
    exact absurd h (by simp)
  · rw [if_neg hq] at h
    obtain ⟨moqv, hmoq, h⟩ := except_bind_ok h
    obtain ⟨pbs, hpbs, h⟩ := except_bind_ok h
    simp only [Except.ok.injEq] at h
    exact ⟨moqv, pbs, hq, requireEntry_ok hmoq, hpbs, h.symm⟩

theorem overseasBreaks_congr {rt : OverseasRates}
    {req1 req2 : OverseasQuoteRequest} {moqv : Nat}
    (hbf : ∀ b, overseasBreakFor rt req1 moqv b =
      overseasBreakFor rt req2 moqv b) :
    ∀ l, overseasBreaks rt req1 moqv l = overseasBreaks rt req2 moqv l := by
  intro l
  induction l with
  | nil => rfl
  | cons b rest ih =>
    unfold overseasBreaks
    rw [hbf b, ih]

theorem isValidDecoration_none : isValidDecoration none = false := rfl

theorem except_bind_ok_eq {ε α β : Type} (a : α) (f : α → Except ε β) :
    (Except.ok a : Except ε α) >>= f = f a := rfl

theorem except_bind_error_eq {ε α β : Type} (e : ε) (f : α → Except ε β) :
    (Except.error e : Except ε α) >>= f = .error e := rfl

theorem computeDomesticQuote_price_breaks_congr {rt : DomesticRates}
    {req1 req2 : DomesticQuoteRequest}
    (hq : req1.quantity = req2.quantity)
    (hbf : ∀ brk, domesticBreakFor rt req1 brk = domesticBreakFor rt req2 brk) :
    (computeDomesticQuote rt req1).map DomesticQuoteResponse.price_breaks =
    (computeDomesticQuote rt req2).map DomesticQuoteResponse.price_breaks := by
  unfold computeDomesticQuote
  rw [hq]
  cases resolveDomesticBreak rt.quantityBreaks req2.quantity with
  | none => rfl
  | some brk =>
    dsimp only
    rw [hbf brk]
    cases domesticBreakFor rt req2 brk with
    | error e => rfl
    | ok pb => rfl

theorem computeOverseasQuote_price_breaks_congr {rt : OverseasRates}
    {req1 req2 : OverseasQuoteRequest}
    (hq : req1.quantity = req2.quantity)
    (hty : req1.hat_type = req2.hat_type)
    (hsm : req1.shipping_method = req2.shipping_method)
    (hbf : ∀ moqv brk, overseasBreakFor rt req1 moqv brk =
      overseasBreakFor rt req2 moqv brk) :
    (computeOverseasQuote rt req1).map OverseasQuoteResponse.price_breaks =
    (computeOverseasQuote rt req2).map OverseasQuoteResponse.price_breaks := by
  unfold computeOverseasQuote
  rw [hq, hty, hsm]
  by_cases hqv : req2.quantity < overseasMinimumQuantity
  · rw [if_pos hqv, if_pos hqv]
  · rw [if_neg hqv, if_neg hqv]
    cases requireEntry QuoteError.PricingDataMissing
        (rt.moq req2.hat_type req2.shipping_method) with
    | error e => rfl
    | ok moqv =>
      simp only [except_bind_ok_eq]
      rw [overseasBreaks_congr (hbf moqv) rt.quantityBreaks]
      cases overseasBreaks rt req2 moqv rt.quantityBreaks with
      | error e => rfl
      | ok pbs => rfl

theorem domesticBreakFor_front_congr {rt : DomesticRates}
    {req : DomesticQuoteRequest}
    (hv : isValidDecoration req.front_decoration = false) (brk : Nat) :
    domesticBreakFor rt req brk =
    domesticBreakFor rt { req with front_decoration := none } brk := by
  unfold domesticBreakFor
  simp [decorationLine_invalid hv, decorationLine_invalid isValidDecoration_none]

theorem domesticBreakFor_left_congr {rt : DomesticRates}
    {req : DomesticQuoteRequest}
    (hv : isValidDecoration req.left_decoration = false) (brk : Nat) :
    domesticBreakFor rt req brk =
    domesticBreakFor rt { req with left_decoration := none } brk := by
  unfold domesticBreakFor
  simp [decorationLine_invalid hv, decorationLine_invalid isValidDecoration_none]

theorem domesticBreakFor_right_congr {rt : DomesticRates}
    {req : DomesticQuoteRequest}
    (hv : isValidDecoration req.right_decoration = false) (brk : Nat) :
    domesticBreakFor rt req brk =
    domesticBreakFor rt { req with right_decoration := none } brk := by
  unfold domesticBreakFor
  simp [decorationLine_invalid hv, decorationLine_invalid isValidDecoration_none]

theorem domesticBreakFor_back_congr {rt : DomesticRates}
    {req : DomesticQuoteRequest}
    (hv : isValidDecoration req.back_decoration = false) (brk : Nat) :
    domesticBreakFor rt req brk =
    domesticBreakFor rt { req with back_decoration := none } brk := by
  unfold domesticBreakFor
  simp [decorationLine_invalid hv, decorationLine_invalid isValidDecoration_none]

theorem overseasBreakFor_front_congr {rt : OverseasRates}
    {req : OverseasQuoteRequest}
    (hv : isValidDecoration req.front_decoration = false) (moqv brk : Nat) :
    overseasBreakFor rt req moqv brk =
    overseasBreakFor rt { req with front_decoration := none } moqv brk := by
  unfold overseasBreakFor
  by_cases hm : brk < moqv
  · rw [if_pos hm, if_pos hm]
  · rw [if_neg hm, if_neg hm]
    simp [decorationLine_invalid hv, decorationLine_invalid isValidDecoration_none]

theorem overseasBreakFor_left_congr {rt : OverseasRates}
    {req : OverseasQuoteRequest}
    (hv : isValidDecoration req.left_decoration = false) (moqv brk : Nat) :
    overseasBreakFor rt req moqv brk =
    overseasBreakFor rt { req with left_decoration := none } moqv brk := by
  unfold overseasBreakFor
  by_cases hm : brk < moqv
  · rw [if_pos hm, if_pos hm]
  · rw [if_neg hm, if_neg hm]
    simp [decorationLine_invalid hv, decorationLine_invalid isValidDecoration_none]

theorem overseasBreakFor_right_congr {rt : OverseasRates}
    {req : OverseasQuoteRequest}
    (hv : isValidDecoration req.right_decoration = false) (moqv brk : Nat) :
    overseasBreakFor rt req moqv brk =
    overseasBreakFor rt { req with right_decoration := none } moqv brk := by
  unfold overseasBreakFor
  by_cases hm : brk < moqv
  · rw [if_pos hm, if_pos hm]
  · rw [if_neg hm, if_neg hm]
    simp [decorationLine_invalid hv, decorationLine_invalid isValidDecoration_none]

theorem overseasBreakFor_back_congr {rt : OverseasRates}
    {req : OverseasQuoteRequest}
    (hv : isValidDecoration req.back_decoration = false) (moqv brk : Nat) :
    overseasBreakFor rt req moqv brk =
    overseasBreakFor rt { req with back_decoration := none } moqv brk := by
  unfold overseasBreakFor
  by_cases hm : brk < moqv
  · rw [if_pos hm, if_pos hm]
  · rw [if_neg hm, if_neg hm]
    simp [decorationLine_invalid hv, decorationLine_invalid isValidDecoration_none]

theorem overseasBreakFor_visor_congr {rt : OverseasRates}
    {req : OverseasQuoteRequest}
    (hv : isValidDecoration req.visor_decoration = false) (moqv brk : Nat) :
    overseasBreakFor rt req moqv brk =
    overseasBreakFor rt { req with visor_decoration := none } moqv brk := by
  unfold overseasBreakFor
  by_cases hm : brk < moqv
  · rw [if_pos hm, if_pos hm]
  · rw [if_neg hm, if_neg hm]
    simp [decorationLine_invalid hv, decorationLine_invalid isValidDecoration_none]

theorem domestic_front_excluded {rt : DomesticRates}
    {req : DomesticQuoteRequest}
    (hv : isValidDecoration req.front_decoration = false) :
    ((computeDomesticQuote rt req).map DomesticQuoteResponse.price_breaks =
      (computeDomesticQuote rt { req with front_decoration := none }).map
        DomesticQuoteResponse.price_breaks) ∧
    ∀ resp, computeDomesticQuote rt req = .ok resp →
      isValidDecoration resp.front_decoration = false ∧
      ∀ pb ∈ resp.price_breaks, pb.front_decoration_price = none := by
  refine ⟨computeDomesticQuote_price_breaks_congr rfl
    (domesticBreakFor_front_congr hv), ?_⟩
  intro resp h
  obtain ⟨brk, pb0, hres, hpb, hresp⟩ := computeDomesticQuote_inv h
  subst hresp
  refine ⟨hv, ?_⟩
  intro pb hmem
  have hpbe : pb = pb0 := List.mem_singleton.mp hmem
  subst hpbe
  have hfront := (domesticBreakFor_inv hpb).2.2.1
  rw [decorationLine_invalid hv] at hfront
  exact ((Except.ok.injEq _ _).mp hfront).symm

theorem domestic_left_excluded {rt : DomesticRates}
    {req : DomesticQuoteRequest}
    (hv : isValidDecoration req.left_decoration = false) :
    ((computeDomesticQuote rt req).map DomesticQuoteResponse.price_breaks =
      (computeDomesticQuote rt { req with left_decoration := none }).map
        DomesticQuoteResponse.price_breaks) ∧
    ∀ resp, computeDomesticQuote rt req = .ok resp →
      isValidDecoration resp.left_decoration = false ∧
      ∀ pb ∈ resp.price_breaks, pb.left_decoration_price = none := by
  refine ⟨computeDomesticQuote_price_breaks_congr rfl
    (domesticBreakFor_left_congr hv), ?_⟩
  intro resp h
  obtain ⟨brk, pb0, hres, hpb, hresp⟩ := computeDomesticQuote_inv h
  subst hresp
  refine ⟨hv, ?_⟩
  intro pb hmem
  have hpbe : pb = pb0 := List.mem_singleton.mp hmem
  subst hpbe
  have hleft := (domesticBreakFor_inv hpb).2.2.2.1
  rw [decorationLine_invalid hv] at hleft
  exact ((Except.ok.injEq _ _).mp hleft).symm

theorem domestic_right_excluded {rt : DomesticRates}
    {req : DomesticQuoteRequest}
    (hv : isValidDecoration req.right_decoration = false) :
    ((computeDomesticQuote rt req).map DomesticQuoteResponse.price_breaks =
      (computeDomesticQuote rt { req with right_decoration := none }).map
        DomesticQuoteResponse.price_breaks) ∧
    ∀ resp, computeDomesticQuote rt req = .ok resp →
      isValidDecoration resp.right_decoration = false ∧
      ∀ pb ∈ resp.price_breaks, pb.right_decoration_price = none := by
  refine ⟨computeDomesticQuote_price_breaks_congr rfl
    (domesticBreakFor_right_congr hv), ?_⟩
  intro resp h
  obtain ⟨brk, pb0, hres, hpb, hresp⟩ := computeDomesticQuote_inv h
  subst hresp
  refine ⟨hv, ?_⟩
  intro pb hmem
  have hpbe : pb = pb0 := List.mem_singleton.mp hmem
  subst hpbe
  have hright := (domesticBreakFor_inv hpb).2.2.2.2.1
  rw [decorationLine_invalid hv] at hright
  exact ((Except.ok.injEq _ _).mp hright).symm

theorem domestic_back_excluded {rt : DomesticRates}
    {req : DomesticQuoteRequest}
    (hv : isValidDecoration req.back_decoration = false) :
    ((computeDomesticQuote rt req).map DomesticQuoteResponse.price_breaks =
      (computeDomesticQuote rt { req with back_decoration := none }).map
        DomesticQuoteResponse.price_breaks) ∧
    ∀ resp, computeDomesticQuote rt req = .ok resp →
      isValidDecoration resp.back_decoration = false ∧
      ∀ pb ∈ resp.price_breaks, pb.back_decoration_price = none := by
  refine ⟨computeDomesticQuote_price_breaks_congr rfl
    (domesticBreakFor_back_congr hv), ?_⟩
  intro resp h
  obtain ⟨brk, pb0, hres, hpb, hresp⟩ := computeDomesticQuote_inv h
  subst hresp
  refine ⟨hv, ?_⟩
  intro pb hmem
  have hpbe : pb = pb0 := List.mem_singleton.mp hmem
  subst hpbe
  have hback := (domesticBreakFor_inv hpb).2.2.2.2.2.1
  rw [decorationLine_invalid hv] at hback
  exact ((Except.ok.injEq _ _).mp hback).symm

theorem overseas_front_excluded {rt : OverseasRates}
    {req : OverseasQuoteRequest}
    (hv : isValidDecoration req.front_decoration = false) :
    ((computeOverseasQuote rt req).map OverseasQuoteResponse.price_breaks =
      (computeOverseasQuote rt { req with front_decoration := none }).map
        OverseasQuoteResponse.price_breaks) ∧
    ∀ resp, computeOverseasQuote rt req = .ok resp →
      isValidDecoration resp.front_decoration = false ∧
      ∀ pb ∈ resp.price_breaks, pb.front_decoration_price = none := by
  refine ⟨computeOverseasQuote_price_breaks_congr rfl rfl rfl
    (overseasBreakFor_front_congr hv), ?_⟩
  intro resp h
  obtain ⟨m, pbs, hq, hmoq, hbks, hresp⟩ := computeOverseasQuote_inv h
  subst hresp
  refine ⟨hv, ?_⟩
  intro pb hmem
  have hbf := (overseasBreaks_inv hbks).2 pb hmem
  obtain ⟨hqb, hbelow, hmeets⟩ := overseasBreakFor_inv hbf
  by_cases hlt : pb.quantity_break < m
  · rw [hbelow hlt]; rfl
  · have hfront := (hmeets hlt).2.1
    rw [decorationLine_invalid hv] at hfront
    exact ((Except.ok.injEq _ _).mp hfront).symm

theorem overseas_left_excluded {rt : OverseasRates}
    {req : OverseasQuoteRequest}
    (hv : isValidDecoration req.left_decoration = false) :
    ((computeOverseasQuote rt req).map OverseasQuoteResponse.price_breaks =
      (computeOverseasQuote rt { req with left_decoration := none }).map
        OverseasQuoteResponse.price_breaks) ∧
    ∀ resp, computeOverseasQuote rt req = .ok resp →
      isValidDecoration resp.left_decoration = false ∧
      ∀ pb ∈ resp.price_breaks, pb.left_decoration_price = none := by
  refine ⟨computeOverseasQuote_price_breaks_congr rfl rfl rfl
    (overseasBreakFor_left_congr hv), ?_⟩
  intro resp h
  obtain ⟨m, pbs, hq, hmoq, hbks, hresp⟩ := computeOverseasQuote_inv h
  subst hresp
  refine ⟨hv, ?_⟩
  intro pb hmem
  have hbf := (overseasBreaks_inv hbks).2 pb hmem
  obtain ⟨hqb, hbelow, hmeets⟩ := overseasBreakFor_inv hbf
  by_cases hlt : pb.quantity_break < m
  · rw [hbelow hlt]; rfl
  · have hleft := (hmeets hlt).2.2.1
    rw [decorationLine_invalid hv] at hleft
    exact ((Except.ok.injEq _ _).mp hleft).symm

theorem overseas_right_excluded {rt : OverseasRates}
    {req : OverseasQuoteRequest}
    (hv : isValidDecoration req.right_decoration = false) :
    ((computeOverseasQuote rt req).map OverseasQuoteResponse.price_breaks =
      (computeOverseasQuote rt { req with right_decoration := none }).map
        OverseasQuoteResponse.price_breaks) ∧
    ∀ resp, computeOverseasQuote rt req = .ok resp →
      isValidDecoration resp.right_decoration = false ∧
      ∀ pb ∈ resp.price_breaks, pb.right_decoration_price = none := by
  refine ⟨computeOverseasQuote_price_breaks_congr rfl rfl rfl
    (overseasBreakFor_right_congr hv), ?_⟩
  intro resp h
  obtain ⟨m, pbs, hq, hmoq, hbks, hresp⟩ := computeOverseasQuote_inv h
  subst hresp
  refine ⟨hv, ?_⟩
  intro pb hmem
  have hbf := (overseasBreaks_inv hbks).2 pb hmem
  obtain ⟨hqb, hbelow, hmeets⟩ := overseasBreakFor_inv hbf
  by_cases hlt : pb.quantity_break < m
  · rw [hbelow hlt]; rfl
  · have hright := (hmeets hlt).2.2.2.1
    rw [decorationLine_invalid hv] at hright
    exact ((Except.ok.injEq _ _).mp hright).symm

theorem overseas_back_excluded {rt : OverseasRates}
    {req : OverseasQuoteRequest}
    (hv : isValidDecoration req.back_decoration = false) :
    ((computeOverseasQuote rt req).map OverseasQuoteResponse.price_breaks =
      (computeOverseasQuote rt { req with back_decoration := none }).map
        OverseasQuoteResponse.price_breaks) ∧
    ∀ resp, computeOverseasQuote rt req = .ok resp →
      isValidDecoration resp.back_decoration = false ∧
      ∀ pb ∈ resp.price_breaks, pb.back_decoration_price = none := by
  refine ⟨computeOverseasQuote_price_breaks_congr rfl rfl rfl
    (overseasBreakFor_back_congr hv), ?_⟩
  intro resp h
  obtain ⟨m, pbs, hq, hmoq, hbks, hresp⟩ := computeOverseasQuote_inv h
  subst hresp
  refine ⟨hv, ?_⟩
  intro pb hmem
  have hbf := (overseasBreaks_inv hbks).2 pb hmem
  obtain ⟨hqb, hbelow, hmeets⟩ := overseasBreakFor_inv hbf
  by_cases hlt : pb.quantity_break < m
  · rw [hbelow hlt]; rfl
  · have hback := (hmeets hlt).2.2.2.2.1
    rw [decorationLine_invalid hv] at hback
    exact ((Except.ok.injEq _ _).mp hback).symm

theorem overseas_visor_excluded {rt : OverseasRates}
    {req : OverseasQuoteRequest}
    (hv : isValidDecoration req.visor_decoration = false) :
    ((computeOverseasQuote rt req).map OverseasQuoteResponse.price_breaks =
      (computeOverseasQuote rt { req with visor_decoration := none }).map
        OverseasQuoteResponse.price_breaks) ∧
    ∀ resp, computeOverseasQuote rt req = .ok resp →
      isValidDecoration resp.visor_decoration = false ∧
      ∀ pb ∈ resp.price_breaks, pb.visor_decoration_price = none := by
  refine ⟨computeOverseasQuote_price_breaks_congr rfl rfl rfl
    (overseasBreakFor_visor_congr hv), ?_⟩
  intro resp h
  obtain ⟨m, pbs, hq, hmoq, hbks, hresp⟩ := computeOverseasQuote_inv h
  subst hresp
  refine ⟨hv, ?_⟩
  intro pb hmem
  have hbf := (overseasBreaks_inv hbks).2 pb hmem
  obtain ⟨hqb, hbelow, hmeets⟩ := overseasBreakFor_inv hbf
  by_cases hlt : pb.quantity_break < m
  · rw [hbelow hlt]; rfl
  · have hvisor := (hmeets hlt).2.2.2.2.2.1
    rw [decorationLine_invalid hv] at hvisor
    exact ((Except.ok.injEq _ _).mp hvisor).symm

theorem toggleDesignAddon_mem (a : String) (s : OverseasQuoteRequest) :
    a ∈ (toggleDesignAddon a s).design_addons.getD [] ↔
    a ∉ s.design_addons.getD [] := by
  unfold toggleDesignAddon
  by_cases hmem : a ∈ s.design_addons.getD []
  · rw [if_pos (by simpa [List.contains, List.elem_iff] using hmem)]
    simp [List.mem_filter, hmem]
  · rw [if_neg (by simpa [List.contains, List.elem_iff] using hmem)]
    simp [hmem]

theorem toggleAccessory_mem (a : String) (s : OverseasQuoteRequest) :
    a ∈ (toggleAccessory a s).accessories.getD [] ↔
    a ∉ s.accessories.getD [] := by
  unfold toggleAccessory
  by_cases hmem : a ∈ s.accessories.getD []
  · rw [if_pos (by simpa [List.contains, List.elem_iff] using hmem)]
    simp [List.mem_filter, hmem]
  · rw [if_neg (by simpa [List.contains, List.elem_iff] using hmem)]
    simp [hmem]

theorem toggleDesignAddon_fields (a : String) (s : OverseasQuoteRequest) :
    (toggleDesignAddon a s).design_number = s.design_number ∧
    (toggleDesignAddon a s).hat_type = s.hat_type ∧
    (toggleDesignAddon a s).quantity = s.quantity ∧
    (toggleDesignAddon a s).front_decoration = s.front_decoration ∧
    (toggleDesignAddon a s).left_decoration = s.left_decoration ∧
    (toggleDesignAddon a s).right_decoration = s.right_decoration ∧
    (toggleDesignAddon a s).back_decoration = s.back_decoration ∧
    (toggleDesignAddon a s).visor_decoration = s.visor_decoration ∧
    (toggleDesignAddon a s).accessories = s.accessories ∧
    (toggleDesignAddon a s).shipping_method = s.shipping_method := by
  by_cases hc : a ∈ s.design_addons.getD [] <;>
    simp [toggleDesignAddon, hc]

theorem toggleAccessory_fields (a : String) (s : OverseasQuoteRequest) :
    (toggleAccessory a s).design_number = s.design_number ∧
    (toggleAccessory a s).hat_type = s.hat_type ∧
    (toggleAccessory a s).quantity = s.quantity ∧
    (toggleAccessory a s).front_decoration = s.front_decoration ∧
    (toggleAccessory a s).left_decoration = s.left_decoration ∧
    (toggleAccessory a s).right_decoration = s.right_decoration ∧
    (toggleAccessory a s).back_decoration = s.back_decoration ∧
    (toggleAccessory a s).visor_decoration = s.visor_decoration ∧
    (toggleAccessory a s).design_addons = s.design_addons ∧
    (toggleAccessory a s).shipping_method = s.shipping_method := by
  by_cases hc : a ∈ s.accessories.getD [] <;>
    simp [toggleAccessory, hc]

/-- C10: for every overseas form state and every add-on or accessory string,
one application of `toggleDesignAddon` (resp. `toggleAccessory`) makes the
string a member of `design_addons` (resp. `accessories`) iff it was not a
member before, two applications restore the original membership, and every
other field of the form state is left unchanged. -/
theorem toggle_involution_and_frame (a : String) (s : OverseasQuoteRequest) :
    (a ∈ (toggleDesignAddon a s).design_addons.getD [] ↔
      a ∉ s.design_addons.getD []) ∧
    (a ∈ (toggleDesignAddon a (toggleDesignAddon a s)).design_addons.getD [] ↔
      a ∈ s.design_addons.getD []) ∧
    ((toggleDesignAddon a s).design_number = s.design_number ∧
     (toggleDesignAddon a s).hat_type = s.hat_type ∧
     (toggleDesignAddon a s).quantity = s.quantity ∧
     (toggleDesignAddon a s).front_decoration = s.front_decoration ∧
     (toggleDesignAddon a s).left_decoration = s.left_decoration ∧
     (toggleDesignAddon a s).right_decoration = s.right_decoration ∧
     (toggleDesignAddon a s).back_decoration = s.back_decoration ∧
     (toggleDesignAddon a s).visor_decoration = s.visor_decoration ∧
     (toggleDesignAddon a s).accessories = s.accessories ∧
     (toggleDesignAddon a s).shipping_method = s.shipping_method) ∧
    (a ∈ (toggleAccessory a s).accessories.getD [] ↔
      a ∉ s.accessories.getD []) ∧
    (a ∈ (toggleAccessory a (toggleAccessory a s)).accessories.getD [] ↔
      a ∈ s.accessories.getD []) ∧
    ((toggleAccessory a s).design_number = s.design_number ∧
     (toggleAccessory a s).hat_type = s.hat_type ∧
     (toggleAccessory a s).quantity = s.quantity ∧
     (toggleAccessory a s).front_decoration = s.front_decoration ∧
     (toggleAccessory a s).left_decoration = s.left_decoration ∧
     (toggleAccessory a s).right_decoration = s.right_decoration ∧
     (toggleAccessory a s).back_decoration = s.back_decoration ∧
     (toggleAccessory a s).visor_decoration = s.visor_decoration ∧
     (toggleAccessory a s).design_addons = s.design_addons ∧
     (toggleAccessory a s).shipping_method = s.shipping_method) := by
  refine ⟨toggleDesignAddon_mem a s, ?_, toggleDesignAddon_fields a s,
    toggleAccessory_mem a s, ?_, toggleAccessory_fields a s⟩
  · rw [toggleDesignAddon_mem, toggleDesignAddon_mem]
    exact not_not
  · rw [toggleAccessory_mem, toggleAccessory_mem]
    exact not_not

/-- C1: for every valid domestic quote request against an ascending break
table, the response's `price_breaks` list has length exactly 1, and the single
break's `quantity_break` is the largest table entry ≤ the requested quantity;
a quantity exactly equal to a break boundary uses that break. -/
theorem domestic_single_break_invariant (rt : DomesticRates)
    (req : DomesticQuoteRequest) (resp : DomesticQuoteResponse)
    (hsorted : rt.quantityBreaks.Pairwise (· < ·))
    (h : computeDomesticQuote rt req = .ok resp) :
    resp.price_breaks.length = 1 ∧
    ∀ pb ∈ resp.price_breaks,
      pb.quantity_break ∈ rt.quantityBreaks ∧
      pb.quantity_break ≤ req.quantity ∧
      (∀ b ∈ rt.quantityBreaks, b ≤ req.quantity → b ≤ pb.quantity_break) ∧
      (req.quantity ∈ rt.quantityBreaks →
        pb.quantity_break = req.quantity) := by
  obtain ⟨brk, pb0, hres, hpb, hresp⟩ := computeDomesticQuote_inv h
  subst hresp
  obtain ⟨hmem, hle, hmax⟩ := resolveDomesticBreak_some hsorted hres
  have hqb : pb0.quantity_break = brk := (domesticBreakFor_inv hpb).1
  refine ⟨rfl, ?_⟩
  intro pb hpbmem
  have hpbe : pb = pb0 := List.mem_singleton.mp hpbmem
  subst hpbe
  rw [hqb]
  exact ⟨hmem, hle, hmax,
    fun hq => Nat.le_antisymm hle (hmax _ hq (Nat.le_refl _))⟩

/-- C1 witness: for the concrete table and request (quantity 150), the
response has exactly one price break. -/
theorem domestic_single_break_invariant_witness :
    respTest.price_breaks.length = 1 :=
  (domestic_single_break_invariant rtTest reqTest respTest
    (by decide) rfl).1

/-- C5: for every valid domestic quote request, the digitizing fee is 0 once
the quantity is at least 144 regardless of `num_dst_files`, and equals
`num_dst_files × per-file rate` below 144. -/
theorem domestic_digitizing_waiver (rt : DomesticRates)
    (req : DomesticQuoteRequest) (resp : DomesticQuoteResponse)
    (h : computeDomesticQuote rt req = .ok resp) :
    ∀ pb ∈ resp.price_breaks,
      (144 ≤ req.quantity → pb.digitizing_fee = some 0) ∧
      (req.quantity < 144 →
        pb.digitizing_fee =
          some ((req.num_dst_files : Int) * rt.digitizingPerFile)) := by
  obtain ⟨brk, pb0, hres, hpb, hresp⟩ := computeDomesticQuote_inv h
  subst hresp
  intro pb hpbmem
  have hpbe : pb = pb0 := List.mem_singleton.mp hpbmem
  subst hpbe
  have hd := (domesticBreakFor_inv hpb).2.2.2.2.2.2.2.2.1
  simp only [digitizingWaiverThreshold] at hd
  constructor
  · intro h144
    rw [hd, if_pos h144]
  · intro hlt
    rw [hd, if_neg (Nat.not_le.mpr hlt)]

/-- C5 witness: at the concrete request with quantity 150 and 3 DST files the
digitizing fee is waived to 0. -/
theorem domestic_digitizing_waiver_witness : pbTest.digitizing_fee = some 0 :=
  (domestic_digitizing_waiver rtTest reqTest respTest rfl pbTest
    (by decide)).1 (by decide)

/-- C6: for every price break of a valid domestic quote response, the
per-piece price is the sum of the per-piece line items of the resolved break,
and the total is the per-piece price times the requested quantity plus the
digitizing fee, which is added once as a flat amount. -/
theorem domestic_total_consistency (rt : DomesticRates)
    (req : DomesticQuoteRequest) (resp : DomesticQuoteResponse)
    (h : computeDomesticQuote rt req = .ok resp) :
    ∀ pb ∈ resp.price_breaks,
      pb.per_piece_price = some (pb.blank_price.getD 0 +
        pb.front_decoration_price.getD 0 + pb.left_decoration_price.getD 0 +
        pb.right_decoration_price.getD 0 + pb.back_decoration_price.getD 0 +
        pb.rush_fee.getD 0 + pb.rope_price.getD 0) ∧
      pb.total = some (pb.per_piece_price.getD 0 * (req.quantity : Int) +
        pb.digitizing_fee.getD 0) := by
  obtain ⟨brk, pb0, hres, hpb, hresp⟩ := computeDomesticQuote_inv h
  subst hresp
  intro pb hpbmem
  have hpbe : pb = pb0 := List.mem_singleton.mp hpbmem
  subst hpbe
  have hinv := domesticBreakFor_inv hpb
  exact ⟨hinv.2.2.2.2.2.2.2.2.2.1, hinv.2.2.2.2.2.2.2.2.2.2⟩

/-- C6 witness: the concrete quote's total equals per-piece price × 150 plus
the digitizing fee. -/
theorem domestic_total_consistency_witness :
    pbTest.total = some (pbTest.per_piece_price.getD 0 * 150 +
      pbTest.digitizing_fee.getD 0) :=
  (domestic_total_consistency rtTest reqTest respTest rfl pbTest
    (by decide)).2

/-- C7: a domestic request whose quantity is below the smallest break (24)
fails with `InvalidRequest`; no response is ever returned for it. -/
theorem domestic_below_minimum_rejected (rt : DomesticRates)
    (req : DomesticQuoteRequest)
    (hmin : ∀ b ∈ rt.quantityBreaks, 24 ≤ b)
    (hq : req.quantity < 24) :
    computeDomesticQuote rt req = .error .InvalidRequest ∧
    ∀ resp, computeDomesticQuote rt req ≠ .ok resp := by
  have hnone := resolveDomesticBreak_eq_none
    (fun b hb => Nat.lt_of_lt_of_le hq (hmin b hb))
  have herr : computeDomesticQuote rt req = .error .InvalidRequest := by
    unfold computeDomesticQuote
    rw [hnone]
  refine ⟨herr, ?_⟩
  intro resp hcontra
  rw [herr] at hcontra
  exact Except.noConfusion hcontra

/-- C7 witness: the concrete request at quantity 10 is rejected with
`InvalidRequest`. -/
theorem domestic_below_minimum_rejected_witness :
    computeDomesticQuote rtTest { reqTest with quantity := 10 } =
      .error .InvalidRequest :=
  (domestic_below_minimum_rejected rtTest { reqTest with quantity := 10 }
    (by decide) (by decide)).1

/-- C2: every successful overseas quote carries one price row per entry of
the ordered break table, each row independently gated by the MOQ of the
requested hat type and shipping method, and the requested quantity never
influences which rows are returned. -/
theorem overseas_full_break_table (rt : OverseasRates)
    (req : OverseasQuoteRequest) (resp : OverseasQuoteResponse)
    (h : computeOverseasQuote rt req = .ok resp) :
    resp.price_breaks.map OverseasPriceBreak.quantity_break =
      rt.quantityBreaks ∧
    (∃ moqv, rt.moq req.hat_type req.shipping_method = some moqv ∧
      ∀ pb ∈ resp.price_breaks,
        meetsMoq pb = true ↔ moqv ≤ pb.quantity_break) ∧
    ∀ q2 resp2,
      computeOverseasQuote rt { req with quantity := q2 } = .ok resp2 →
      resp2.price_breaks = resp.price_breaks := by
  obtain ⟨m, pbs, hq, hmoq, hbks, hresp⟩ := computeOverseasQuote_inv h
  subst hresp
  refine ⟨(overseasBreaks_inv hbks).1, ⟨m, hmoq, ?_⟩, ?_⟩
  · intro pb hmem
    obtain ⟨hqb, hbelow, hmeets⟩ :=
      overseasBreakFor_inv ((overseasBreaks_inv hbks).2 pb hmem)
    by_cases hlt : pb.quantity_break < m
    · have hppp : pb.per_piece_price = none := by rw [hbelow hlt]; rfl
      simp only [meetsMoq, hppp, Option.isSome_none]
      constructor
      · intro hc; exact absurd hc (by simp)
      · intro hle; exact absurd hlt (Nat.not_lt.mpr hle)
    · have hpp := (hmeets hlt).2.2.2.2.2.2.2.2.2
      simp only [meetsMoq, hpp, Option.isSome_some]
      refine ⟨fun _ => Nat.not_lt.mp hlt, fun _ => ?_⟩
      trivial
  · intro q2 resp2 h2
    obtain ⟨m2, pbs2, hq2, hmoq2, hbks2, hresp2⟩ := computeOverseasQuote_inv h2
    subst hresp2
    have hm2 : m = m2 := Option.some.inj (hmoq.symm.trans hmoq2)
    subst hm2
    have hbf : ∀ b, overseasBreakFor rt { req with quantity := q2 } m b =
        overseasBreakFor rt req m b := fun _b => rfl
    have hcongr : overseasBreaks rt { req with quantity := q2 } m
        rt.quantityBreaks = overseasBreaks rt req m rt.quantityBreaks :=
      overseasBreaks_congr hbf rt.quantityBreaks
    rw [hcongr] at hbks2
    exact (Except.ok.injEq _ _).mp (hbks2.symm.trans hbks)

/-- C2 witness: the concrete overseas quote returns one row per table break,
in order. -/
theorem overseas_full_break_table_witness :
    orespTest.price_breaks.map OverseasPriceBreak.quantity_break =
      ortTest.quantityBreaks :=
  (overseas_full_break_table ortTest oreqTest orespTest rfl).1

/-- C4 (amended): in every overseas quote response, a break strictly below
the MOQ of the requested hat type and shipping method has all per-piece
price fields null together while its quantity value stays present and
correct; a break at or above the MOQ has its always-computed fields
(blank, add-ons, accessories, shipping, per-piece) non-null, decoration
fields possibly excepted when a location carries no valid decoration; hence
`per_piece_price !== null` (the frontend's `meetsMoq`) is a sound and
complete MOQ check. -/
theorem overseas_moq_nullability (rt : OverseasRates)
    (req : OverseasQuoteRequest) (resp : OverseasQuoteResponse) (moqv : Nat)
    (h : computeOverseasQuote rt req = .ok resp)
    (hm : rt.moq req.hat_type req.shipping_method = some moqv) :
    ∀ pb ∈ resp.price_breaks,
      pb.quantity_break ∈ rt.quantityBreaks ∧
      (pb.quantity_break < moqv →
        pb.blank_price = none ∧ pb.front_decoration_price = none ∧
        pb.left_decoration_price = none ∧ pb.right_decoration_price = none ∧
        pb.back_decoration_price = none ∧ pb.visor_decoration_price = none ∧
        pb.addons_price = none ∧ pb.accessories_price = none ∧
        pb.shipping_price = none ∧ pb.per_piece_price = none) ∧
      (moqv ≤ pb.quantity_break →
        pb.blank_price.isSome = true ∧ pb.addons_price.isSome = true ∧
        pb.accessories_price.isSome = true ∧
        pb.shipping_price.isSome = true ∧
        pb.per_piece_price.isSome = true) ∧
      (meetsMoq pb = true ↔ moqv ≤ pb.quantity_break) := by
  obtain ⟨m, pbs, hq, hmoq, hbks, hresp⟩ := computeOverseasQuote_inv h
  subst hresp
  have hmm : m = moqv := Option.some.inj (hmoq.symm.trans hm)
  subst hmm
  intro pb hmem
  obtain ⟨hqb, hbelow, hmeets⟩ :=
    overseasBreakFor_inv ((overseasBreaks_inv hbks).2 pb hmem)
  have hmemqb : pb.quantity_break ∈ rt.quantityBreaks := by
    rw [← (overseasBreaks_inv hbks).1]
    exact List.mem_map_of_mem _ hmem
  refine ⟨hmemqb, ?_, ?_, ?_⟩
  · intro hlt
    rw [hbelow hlt]
    exact ⟨rfl, rfl, rfl, rfl, rfl, rfl, rfl, rfl, rfl, rfl⟩
  · intro hge
    have hlt := Nat.not_lt.mpr hge
    obtain ⟨⟨blank, _, hbl⟩, _, _, _, _, _, ⟨ad, _, had⟩, ⟨ac, _, hac⟩,
      ⟨sh, _, hsh⟩, hpp⟩ := hmeets hlt
    exact ⟨by rw [hbl]; rfl, by rw [had]; rfl, by rw [hac]; rfl,
      by rw [hsh]; rfl, by rw [hpp]; rfl⟩
  · by_cases hlt : pb.quantity_break < m
    · have hppp : pb.per_piece_price = none := by rw [hbelow hlt]; rfl
      simp only [meetsMoq, hppp, Option.isSome_none]
      constructor
      · intro hc; exact absurd hc (by simp)
      · intro hle; exact absurd hlt (Nat.not_lt.mpr hle)
    · have hpp := (hmeets hlt).2.2.2.2.2.2.2.2.2
      simp only [meetsMoq, hpp, Option.isSome_some]
      refine ⟨fun _ => Nat.not_lt.mp hlt, fun _ => ?_⟩
      trivial

/-- C4 witness: for the concrete overseas quote, the frontend's `meetsMoq`
test on the 576 row agrees with the MOQ comparison. -/
theorem overseas_moq_nullability_witness :
    meetsMoq opbTest = true ↔ 576 ≤ opbTest.quantity_break :=
  (overseas_moq_nullability ortTest oreqTest orespTest 576 rfl rfl opbTest
    (by decide)).2.2.2

/-- C4 counterexample: the claim's "either all per-piece price fields are
null together or none of them are null" fails on the code's contract: the
concrete overseas response contains a priced row (per-piece price non-null,
meets MOQ) whose left-decoration price field is null, because that location
carries no decoration. -/
theorem overseas_moq_nullability_counterexample :
    computeOverseasQuote ortTest oreqTest = .ok orespTest ∧
    opbTest ∈ orespTest.price_breaks ∧
    meetsMoq opbTest = true ∧
    opbTest.per_piece_price ≠ none ∧
    opbTest.left_decoration_price = none := by
  refine ⟨rfl, by decide, rfl, by decide, rfl⟩

/-- C3: a decoration value of null, the empty string, or the literal "0" is
invalid; for every quote request (domestic or overseas) and every decoration
location (front, left, right, back, and visor for overseas), setting such a
value at a location leaves the computed price breaks identical to not
decorating that location at all, the location's price field is null — never
a priced zero-cost amount — and the value echoes as falsy, so the frontend
renders no line item for it. -/
theorem decoration_exclusion (rt : DomesticRates) (ort : OverseasRates)
    (req : DomesticQuoteRequest) (oreq : OverseasQuoteRequest)
    (v : Option String) (hv : isValidDecoration v = false) :
    (isValidDecoration none = false ∧ isValidDecoration (some "") = false ∧
      isValidDecoration (some "0") = false) ∧
    (((computeDomesticQuote rt { req with front_decoration := v }).map
        DomesticQuoteResponse.price_breaks =
      (computeDomesticQuote rt { req with front_decoration := none }).map
        DomesticQuoteResponse.price_breaks) ∧
     ∀ resp, computeDomesticQuote rt { req with front_decoration := v } =
         .ok resp →
       isValidDecoration resp.front_decoration = false ∧
       ∀ pb ∈ resp.price_breaks, pb.front_decoration_price = none) ∧
    (((computeDomesticQuote rt { req with left_decoration := v }).map
        DomesticQuoteResponse.price_breaks =
      (computeDomesticQuote rt { req with left_decoration := none }).map
        DomesticQuoteResponse.price_breaks) ∧
     ∀ resp, computeDomesticQuote rt { req with left_decoration := v } =
         .ok resp →
       isValidDecoration resp.left_decoration = false ∧
       ∀ pb ∈ resp.price_breaks, pb.left_decoration_price = none) ∧
    (((computeDomesticQuote rt { req with right_decoration := v }).map
        DomesticQuoteResponse.price_breaks =
      (computeDomesticQuote rt { req with right_decoration := none }).map
        DomesticQuoteResponse.price_breaks) ∧
     ∀ resp, computeDomesticQuote rt { req with right_decoration := v } =
         .ok resp →
       isValidDecoration resp.right_decoration = false ∧
       ∀ pb ∈ resp.price_breaks, pb.right_decoration_price = none) ∧
    (((computeDomesticQuote rt { req with back_decoration := v }).map
        DomesticQuoteResponse.price_breaks =
      (computeDomesticQuote rt { req with back_decoration := none }).map
        DomesticQuoteResponse.price_breaks) ∧
     ∀ resp, computeDomesticQuote rt { req with back_decoration := v } =
         .ok resp →
       isValidDecoration resp.back_decoration = false ∧
       ∀ pb ∈ resp.price_breaks, pb.back_decoration_price = none) ∧
    (((computeOverseasQuote ort { oreq with front_decoration := v }).map
        OverseasQuoteResponse.price_breaks =
      (computeOverseasQuote ort { oreq with front_decoration := none }).map
        OverseasQuoteResponse.price_breaks) ∧
     ∀ resp, computeOverseasQuote ort { oreq with front_decoration := v } =
         .ok resp →
       isValidDecoration resp.front_decoration = false ∧
       ∀ pb ∈ resp.price_breaks, pb.front_decoration_price = none) ∧
    (((computeOverseasQuote ort { oreq with left_decoration := v }).map
        OverseasQuoteResponse.price_breaks =
      (computeOverseasQuote ort { oreq with left_decoration := none }).map
        OverseasQuoteResponse.price_breaks) ∧
     ∀ resp, computeOverseasQuote ort { oreq with left_decoration := v } =
         .ok resp →
       isValidDecoration resp.left_decoration = false ∧
       ∀ pb ∈ resp.price_breaks, pb.left_decoration_price = none) ∧
    (((computeOverseasQuote ort { oreq with right_decoration := v }).map
        OverseasQuoteResponse.price_breaks =
      (computeOverseasQuote ort { oreq with right_decoration := none }).map
        OverseasQuoteResponse.price_breaks) ∧
     ∀ resp, computeOverseasQuote ort { oreq with right_decoration := v } =
         .ok resp →
       isValidDecoration resp.right_decoration = false ∧
       ∀ pb ∈ resp.price_breaks, pb.right_decoration_price = none) ∧
    (((computeOverseasQuote ort { oreq with back_decoration := v }).map
        OverseasQuoteResponse.price_breaks =
      (computeOverseasQuote ort { oreq with back_decoration := none }).map
        OverseasQuoteResponse.price_breaks) ∧
     ∀ resp, computeOverseasQuote ort { oreq with back_decoration := v } =
         .ok resp →
       isValidDecoration resp.back_decoration = false ∧
       ∀ pb ∈ resp.price_breaks, pb.back_decoration_price = none) ∧
    (((computeOverseasQuote ort { oreq with visor_decoration := v }).map
        OverseasQuoteResponse.price_breaks =
      (computeOverseasQuote ort { oreq with visor_decoration := none }).map
        OverseasQuoteResponse.price_breaks) ∧
     ∀ resp, computeOverseasQuote ort { oreq with visor_decoration := v } =
         .ok resp →
       isValidDecoration resp.visor_decoration = false ∧
       ∀ pb ∈ resp.price_breaks, pb.visor_decoration_price = none) := by
  refine ⟨⟨rfl, by decide, by decide⟩, ?_, ?_, ?_, ?_, ?_, ?_, ?_, ?_, ?_⟩
  · exact @domestic_front_excluded rt { req with front_decoration := v } hv
  · exact @domestic_left_excluded rt { req with left_decoration := v } hv
  · exact @domestic_right_excluded rt { req with right_decoration := v } hv
  · exact @domestic_back_excluded rt { req with back_decoration := v } hv
  · exact @overseas_front_excluded ort { oreq with front_decoration := v } hv
  · exact @overseas_left_excluded ort { oreq with left_decoration := v } hv
  · exact @overseas_right_excluded ort { oreq with right_decoration := v } hv
  · exact @overseas_back_excluded ort { oreq with back_decoration := v } hv
  · exact @overseas_visor_excluded ort { oreq with visor_decoration := v } hv

/-- C3 witness: for the literal decoration value "0" at the concrete table
and request, the domestic price breaks coincide with those of the request
without a front decoration. -/
theorem decoration_exclusion_witness :
    (computeDomesticQuote rtTest
        { reqTest with front_decoration := some "0" }).map
      DomesticQuoteResponse.price_breaks =
    (computeDomesticQuote rtTest
        { reqTest with front_decoration := none }).map
      DomesticQuoteResponse.price_breaks :=
  (decoration_exclusion rtTest ortTest reqTest oreqTest (some "0")
    (by decide)).2.1.1

theorem except_ok_or_error {ε α : Type} (x : Except ε α) :
    (∃ a, x = .ok a) ∨ (∃ e, x = .error e) := by
  cases x with
  | ok a => exact Or.inl ⟨a, rfl⟩
  | error e => exact Or.inr ⟨e, rfl⟩

theorem except_bind_error_inv {ε α β : Type} {x : Except ε α}
    {f : α → Except ε β} {e : ε} (h : x >>= f = .error e) :
    x = .error e ∨ ∃ a, x = .ok a ∧ f a = .error e := by
  cases x with
  | error e0 =>
    left
    have he : e0 = e := by simpa [Bind.bind, Except.bind] using h
    rw [he]
  | ok a => exact Or.inr ⟨a, rfl, h⟩

theorem requireEntry_error {α : Type} {e₀ e : QuoteError} {o : Option α}
    (h : requireEntry e₀ o = .error e) : e = e₀ := by
  cases o <;> simp_all [requireEntry]

theorem requireEntry_some {α : Type} (e : QuoteError) (a : α) :
    requireEntry e (some a) = .ok a := rfl

theorem decorationLine_error_pdm {f : String → Nat → Option Int}
    {slot : Option String} {brk : Nat} {e : QuoteError}
    (h : decorationLine f slot brk = .error e) : e = .PricingDataMissing := by
  unfold decorationLine at h
  by_cases hv : isValidDecoration slot
  · rw [if_pos hv] at h
    cases hm : slot.bind (fun m => f m brk) with
    | none =>
      rw [hm] at h
      exact ((Except.error.injEq _ _).mp h).symm
    | some p =>
      rw [hm] at h
      exact absurd h (by simp)
  · rw [if_neg hv] at h
    exact absurd h (by simp)

theorem decorationLine_ok_valid {f : String → Nat → Option Int}
    {slot : Option String} {brk : Nat} {o : Option Int}
    (h : decorationLine f slot brk = .ok o)
    (hv : isValidDecoration slot = true)
    (hm : slot.bind (fun m => f m brk) = none) : False := by
  unfold decorationLine at h
  rw [if_pos hv, hm] at h
  exact Except.noConfusion h

theorem sumItemPrices_ok_mem {lookup : String → Nat → Option Int}
    {brk : Nat} : ∀ {items : List String} {s : Int},
    sumItemPrices lookup brk items = .ok s →
    ∀ it ∈ items, lookup it brk ≠ none := by
  intro items
  induction items with
  | nil => intro s h it hit; cases hit
  | cons x rest ih =>
    intro s h it hit
    unfold sumItemPrices at h
    obtain ⟨p, hp, h⟩ := except_bind_ok h
    obtain ⟨s2, hs2, h2⟩ := except_bind_ok h
    rcases List.mem_cons.mp hit with rfl | hit
    · intro hm
      rw [hm] at hp
      simp [requireEntry] at hp
    · exact ih hs2 it hit

theorem sumItemPrices_error_pdm {lookup : String → Nat → Option Int}
    {brk : Nat} : ∀ {items : List String} {e : QuoteError},
    sumItemPrices lookup brk items = .error e → e = .PricingDataMissing := by
  intro items
  induction items with
  | nil => intro e h; simp [sumItemPrices] at h
  | cons x rest ih =>
    intro e h
    unfold sumItemPrices at h
    rcases except_bind_error_inv h with h | ⟨p, hp, h⟩
    · exact requireEntry_error h
    rcases except_bind_error_inv h with h | ⟨s, hs, h⟩
    · exact ih h
    · exact absurd h (by simp)

theorem domesticBreakFor_error_pdm {rt : DomesticRates}
    {req : DomesticQuoteRequest} {brk : Nat} {e : QuoteError}
    (h : domesticBreakFor rt req brk = .error e) :
    e = .PricingDataMissing := by
  unfold domesticBreakFor at h
  rcases except_bind_error_inv h with h | ⟨blank, hblank, h⟩
  · exact requireEntry_error h
  rcases except_bind_error_inv h with h | ⟨front, hfront, h⟩
  · exact decorationLine_error_pdm h
  rcases except_bind_error_inv h with h | ⟨left, hleft, h⟩
  · exact decorationLine_error_pdm h
  rcases except_bind_error_inv h with h | ⟨right, hright, h⟩
  · exact decorationLine_error_pdm h
  rcases except_bind_error_inv h with h | ⟨back, hback, h⟩
  · exact decorationLine_error_pdm h
  rcases except_bind_error_inv h with h | ⟨rush, hrush, h⟩
  · exact requireEntry_error h
  · exact absurd h (by simp)

theorem overseasBreakFor_error_pdm {rt : OverseasRates}
    {req : OverseasQuoteRequest} {moqv brk : Nat} {e : QuoteError}
    (h : overseasBreakFor rt req moqv brk = .error e) :
    e = .PricingDataMissing := by
  unfold overseasBreakFor at h
  by_cases hm : brk < moqv
  · rw [if_pos hm] at h
    exact absurd h (by simp)
  · rw [if_neg hm] at h
    rcases except_bind_error_inv h with h | ⟨blank, hblank, h⟩
    · exact requireEntry_error h
    rcases except_bind_error_inv h with h | ⟨front, hfront, h⟩
    · exact decorationLine_error_pdm h
    rcases except_bind_error_inv h with h | ⟨left, hleft, h⟩
    · exact decorationLine_error_pdm h
    rcases except_bind_error_inv h with h | ⟨right, hright, h⟩
    · exact decorationLine_error_pdm h
    rcases except_bind_error_inv h with h | ⟨back, hback, h⟩
    · exact decorationLine_error_pdm h
    rcases except_bind_error_inv h with h | ⟨visor, hvisor, h⟩
    · exact decorationLine_error_pdm h
    rcases except_bind_error_inv h with h | ⟨addons, haddons, h⟩
    · exact sumItemPrices_error_pdm h
    rcases except_bind_error_inv h with h | ⟨accessories, hacc, h⟩
    · exact sumItemPrices_error_pdm h
    rcases except_bind_error_inv h with h | ⟨shipping, hship, h⟩
    · exact requireEntry_error h
    · exact absurd h (by simp)

theorem overseasBreaks_error_of_mem {rt : OverseasRates}
    {req : OverseasQuoteRequest} {moqv b : Nat} : ∀ {l : List Nat},
    b ∈ l → overseasBreakFor rt req moqv b = .error .PricingDataMissing →
    overseasBreaks rt req moqv l = .error .PricingDataMissing := by
  intro l
  induction l with
  | nil => intro hb; cases hb
  | cons a rest ih =>
    intro hb herr
    unfold overseasBreaks
    cases ha : overseasBreakFor rt req moqv a with
    | error e =>
      have hpdm : e = .PricingDataMissing := overseasBreakFor_error_pdm ha
      subst hpdm
      exact except_bind_error_eq _ _
    | ok pb =>
      rcases List.mem_cons.mp hb with rfl | hb
      · rw [herr] at ha
        exact Except.noConfusion ha
      · have hrest := ih hb herr
        simp only [except_bind_ok_eq]
        rw [hrest]
        exact except_bind_error_eq _ _

/-- C8: every rate-table lookup the computation performs — domestic blank
(style, break), front and additional decoration (method, break), and rush
fee (speed), and overseas MOQ (hat type, shipping method), blank, all five
decoration locations, each selected add-on and accessory, and shipping
(method, break) — aborts the whole computation with `PricingDataMissing`
when its entry is missing; the error is distinct from `InvalidRequest`, and
an aborted computation returns no response, so a missing entry is never
silently priced as zero in any returned amount. -/
theorem pricing_data_missing_aborts (rt : DomesticRates)
    (req : DomesticQuoteRequest) (brk : Nat)
    (hres : resolveDomesticBreak rt.quantityBreaks req.quantity = some brk) :
    ((rt.blankPrice req.style_number brk = none ∨
      (isValidDecoration req.front_decoration = true ∧
        req.front_decoration.bind
          (fun m => rt.frontDecorationPrice m brk) = none) ∨
      (isValidDecoration req.left_decoration = true ∧
        req.left_decoration.bind
          (fun m => rt.additionalDecorationPrice m brk) = none) ∨
      (isValidDecoration req.right_decoration = true ∧
        req.right_decoration.bind
          (fun m => rt.additionalDecorationPrice m brk) = none) ∨
      (isValidDecoration req.back_decoration = true ∧
        req.back_decoration.bind
          (fun m => rt.additionalDecorationPrice m brk) = none) ∨
      rt.rushFee req.shipping_speed = none) →
      computeDomesticQuote rt req = .error .PricingDataMissing) ∧
    (∀ (ort : OverseasRates) (oreq : OverseasQuoteRequest),
      ¬ oreq.quantity < overseasMinimumQuantity →
      (ort.moq oreq.hat_type oreq.shipping_method = none →
        computeOverseasQuote ort oreq = .error .PricingDataMissing) ∧
      (∀ moqv b, ort.moq oreq.hat_type oreq.shipping_method = some moqv →
        b ∈ ort.quantityBreaks → ¬ b < moqv →
        (ort.blankPrice oreq.hat_type b = none ∨
         (isValidDecoration oreq.front_decoration = true ∧
           oreq.front_decoration.bind
             (fun m => ort.decorationPrice m b) = none) ∨
         (isValidDecoration oreq.left_decoration = true ∧
           oreq.left_decoration.bind
             (fun m => ort.decorationPrice m b) = none) ∨
         (isValidDecoration oreq.right_decoration = true ∧
           oreq.right_decoration.bind
             (fun m => ort.decorationPrice m b) = none) ∨
         (isValidDecoration oreq.back_decoration = true ∧
           oreq.back_decoration.bind
             (fun m => ort.decorationPrice m b) = none) ∨
         (isValidDecoration oreq.visor_decoration = true ∧
           oreq.visor_decoration.bind
             (fun m => ort.decorationPrice m b) = none) ∨
         (∃ it ∈ oreq.design_addons.getD [], ort.addonPrice it b = none) ∨
         (∃ it ∈ oreq.accessories.getD [], ort.accessoryPrice it b = none) ∨
         ort.shippingPrice oreq.shipping_method b = none) →
        computeOverseasQuote ort oreq = .error .PricingDataMissing)) ∧
    (QuoteError.PricingDataMissing ≠ QuoteError.InvalidRequest) ∧
    (computeDomesticQuote rt req = .error .PricingDataMissing →
      ∀ resp, computeDomesticQuote rt req ≠ .ok resp) := by
  refine ⟨?_, ?_, by decide, ?_⟩
  · intro hmiss
    have hne : ∀ pb, domesticBreakFor rt req brk ≠ .ok pb := by
      intro pb hok
      obtain ⟨_, ⟨blank, hbl, _⟩, hfr, hle, hri, hba, ⟨rush, hru, _⟩,
        _, _, _, _⟩ := domesticBreakFor_inv hok
      rcases hmiss with hm | ⟨hv, hm⟩ | ⟨hv, hm⟩ | ⟨hv, hm⟩ | ⟨hv, hm⟩ | hm
      · rw [hm] at hbl; exact Option.noConfusion hbl
      · exact decorationLine_ok_valid hfr hv hm
      · exact decorationLine_ok_valid hle hv hm
      · exact decorationLine_ok_valid hri hv hm
      · exact decorationLine_ok_valid hba hv hm
      · rw [hm] at hru; exact Option.noConfusion hru
    rcases except_ok_or_error (domesticBreakFor rt req brk) with
      ⟨pb, hok⟩ | ⟨e, herr⟩
    · exact absurd hok (hne pb)
    · have hpdm := domesticBreakFor_error_pdm herr
      subst hpdm
      unfold computeDomesticQuote
      rw [hres]
      dsimp only
      rw [herr]
      exact except_bind_error_eq _ _
  · intro ort oreq hq
    constructor
    · intro hmiss
      unfold computeOverseasQuote
      rw [if_neg hq, hmiss]
      rfl
    · intro moqv b hmoq hbmem hbm hmiss
      have hne : ∀ pb, overseasBreakFor ort oreq moqv b ≠ .ok pb := by
        intro pb hok
        obtain ⟨hqb, _, hmeets⟩ := overseasBreakFor_inv hok
        obtain ⟨⟨blank, hbl, _⟩, hfr, hle, hri, hba, hvi, ⟨ad, had, _⟩,
          ⟨ac, hac, _⟩, ⟨sh, hsh, _⟩, _⟩ := hmeets hbm
        rcases hmiss with hm | ⟨hv, hm⟩ | ⟨hv, hm⟩ | ⟨hv, hm⟩ | ⟨hv, hm⟩ |
          ⟨hv, hm⟩ | ⟨it, hit, hm⟩ | ⟨it, hit, hm⟩ | hm
        · rw [hm] at hbl; exact Option.noConfusion hbl
        · exact decorationLine_ok_valid hfr hv hm
        · exact decorationLine_ok_valid hle hv hm
        · exact decorationLine_ok_valid hri hv hm
        · exact decorationLine_ok_valid hba hv hm
        · exact decorationLine_ok_valid hvi hv hm
        · exact sumItemPrices_ok_mem had it hit hm
        · exact sumItemPrices_ok_mem hac it hit hm
        · rw [hm] at hsh; exact Option.noConfusion hsh
      rcases except_ok_or_error (overseasBreakFor ort oreq moqv b) with
        ⟨pb, hok⟩ | ⟨e, herr⟩
      · exact absurd hok (hne pb)
      · have hpdm := overseasBreakFor_error_pdm herr
        subst hpdm
        have hbrks := overseasBreaks_error_of_mem hbmem herr
        unfold computeOverseasQuote
        rw [if_neg hq, hmoq]
        simp only [requireEntry_some, except_bind_ok_eq]
        rw [hbrks]
        exact except_bind_error_eq _ _
  · intro herr resp hcontra
    rw [herr] at hcontra
    exact Except.noConfusion hcontra

/-- C8 witness: an unknown style number at the concrete table aborts with
`PricingDataMissing`. -/
theorem pricing_data_missing_aborts_witness :
    computeDomesticQuote rtTest { reqTest with style_number := "ZZ" } =
      .error .PricingDataMissing :=
  (pricing_data_missing_aborts rtTest
    { reqTest with style_number := "ZZ" } 144 rfl).1 (Or.inl rfl)

theorem computeOverseasQuote_label_irrelevant (rt : OverseasRates)
    (req : OverseasQuoteRequest) (d : Option String) :
    computeOverseasQuote rt { req with design_number := d } =
    computeOverseasQuote rt req := by
  unfold computeOverseasQuote
  dsimp only
  by_cases hq : req.quantity < overseasMinimumQuantity
  · rw [if_pos hq, if_pos hq]
  · rw [if_neg hq, if_neg hq]
    cases requireEntry QuoteError.PricingDataMissing
        (rt.moq req.hat_type req.shipping_method) with
    | error e => rfl
    | ok moqv =>
      simp only [except_bind_ok_eq]
      have hbf : ∀ b, overseasBreakFor rt { req with design_number := d }
          moqv b = overseasBreakFor rt req moqv b := fun _b => rfl
      rw [overseasBreaks_congr hbf rt.quantityBreaks]

/-- C9: saving a quote of either channel for a design computes through the
matching assembler and stores the request fields with the cached snapshot;
an immediate fetch returns exactly the stored record by pure lookup (no
recomputation); the cached snapshot equals what the assembler produces for
the stored request fields — for a domestic save `cached_total` and
`cached_per_piece` are the resolved break's values, and for an overseas save
the full break table is cached while the scalar fields stay null, the
overseas response resolving no single total. -/
theorem design_quote_roundtrip (rt : DomesticRates) (ort : OverseasRates)
    (store : QuoteStore) (designId : String) (qreq : QuoteRequest)
    (store' : QuoteStore) (dq : DesignQuote)
    (h : saveQuote rt ort store designId qreq = .ok (store', dq)) :
    getQuote store' designId = some dq ∧
    ((∃ req resp, qreq = .domestic req ∧
        computeDomesticQuote rt (domesticRequestOfQuote dq) = .ok resp ∧
        dq.quote_type = "domestic" ∧
        dq.cached_price_breaks = some (.domestic resp.price_breaks) ∧
        dq.cached_total =
          resp.price_breaks.head?.bind DomesticPriceBreak.total ∧
        dq.cached_per_piece =
          resp.price_breaks.head?.bind DomesticPriceBreak.per_piece_price) ∨
     (∃ req resp, qreq = .overseas req ∧
        computeOverseasQuote ort (overseasRequestOfQuote dq) = .ok resp ∧
        dq.quote_type = "overseas" ∧
        dq.cached_price_breaks = some (.overseas resp.price_breaks) ∧
        dq.cached_total = none ∧
        dq.cached_per_piece = none)) := by
  cases qreq with
  | domestic req =>
    unfold saveQuote at h
    obtain ⟨resp, hresp, h⟩ := except_bind_ok h
    simp only [Except.ok.injEq] at h
    obtain ⟨h1, h2⟩ := Prod.mk.injEq .. |>.mp h
    subst h1
    subst h2
    constructor
    · unfold getQuote
      rw [List.find?_cons_of_pos]
      · rfl
      · simp
    · refine Or.inl ⟨req, resp, rfl, ?_, rfl, rfl, rfl, rfl⟩
      have heq : computeDomesticQuote rt
          (domesticRequestOfQuote (designQuoteOfDomestic designId req resp)) =
        computeDomesticQuote rt req := rfl
      rw [heq]
      exact hresp
  | overseas req =>
    unfold saveQuote at h
    obtain ⟨resp, hresp, h⟩ := except_bind_ok h
    simp only [Except.ok.injEq] at h
    obtain ⟨h1, h2⟩ := Prod.mk.injEq .. |>.mp h
    subst h1
    subst h2
    constructor
    · unfold getQuote
      rw [List.find?_cons_of_pos]
      · rfl
      · simp
    · refine Or.inr ⟨req, resp, rfl, ?_, rfl, rfl, rfl, rfl⟩
      have heq1 : overseasRequestOfQuote
          (designQuoteOfOverseas designId req resp) =
        { req with design_number := none } := rfl
      rw [heq1, computeOverseasQuote_label_irrelevant]
      exact hresp

/-- C9 witness: saving the concrete overseas request against design "d2"
(over a store already holding the domestic save for "d1") and fetching it
back returns exactly the stored record. -/
theorem design_quote_roundtrip_witness :
    getQuote savedTestOverseas.1 "d2" = some savedTestOverseas.2 :=
  (design_quote_roundtrip rtTest ortTest savedTest.1 "d2"
    (.overseas oreqTest) savedTestOverseas.1 savedTestOverseas.2 rfl).1

end SalesTools
